import Mathlib

/-! CPPMRX: a shallow embedding of `src/CPPMRX.cpp`

The file-level statics of `CPPMRX.cpp` and the function-level statics of
`CPPMRX::computeRC` form one record `State`.  Machine integers are natural numbers
with the wrap-around written out (`% 65536`, `% 256`, `% 4294967296`).  Array
accesses go through `readAt` / `writeAt`, which fail (`none`) on an index outside
the declared extent, so that `some` results certify that every access was in bounds.
-/

namespace CPPMRX

/-! ## Definitions -/

/-- Timing thresholds `CPPMRX::MINPULSE`, `CPPMRX::MAXPULSE`, `CPPMRX::SYNCPULSE`.
They are declared in `CPPMRX.h`; the functions below take them as a parameter. -/
structure Consts where
  MINPULSE : Nat
  MAXPULSE : Nat
  SYNCPULSE : Nat

/-- Ordering and width of the thresholds: `uint16_t` values with
`MINPULSE <= MAXPULSE < SYNCPULSE`. -/
def Consts.WF (c : Consts) : Prop :=
  c.MINPULSE ≤ c.MAXPULSE ∧ c.MAXPULSE < c.SYNCPULSE ∧ c.SYNCPULSE < 65536

instance (c : Consts) : Decidable c.WF := by
  unfold Consts.WF; infer_instance

/-- Capacity constant `static const uint8_t MAX_CHANS = 8`. -/
abbrev MAX_CHANS : Nat := 8

/-- All static storage of `CPPMRX.cpp`: the six file-level variables and the three
function-level statics of `computeRC`. -/
structure State where
  ppmTmp : Fin 8 → Nat
  startPulse : Nat
  ppmCounter : Nat
  ppmError : Nat
  rcvr : Fin 8 → Nat
  got_new_frame : Bool
  rcData4Values : Fin 8 → Fin 4 → Nat
  rcDataMean : Fin 8 → Nat
  rc4ValuesIndex : Nat

/-- Static storage before any code has run: C++ zero-initialises it. -/
def zeroInit : State where
  ppmTmp := fun _ => 0
  startPulse := 0
  ppmCounter := 0
  ppmError := 0
  rcvr := fun _ => 0
  got_new_frame := false
  rcData4Values := fun _ _ => 0
  rcDataMean := fun _ => 0
  rc4ValuesIndex := 0

/-- Checked array read `a[i]` of an array of extent `n`. -/
def readAt {n : Nat} (a : Fin n → Nat) (i : Nat) : Option Nat :=
  if h : i < n then some (a ⟨i, h⟩) else none

/-- Checked array write `a[i] = v` of an array of extent `n`. -/
def writeAt {n : Nat} (a : Fin n → Nat) (i v : Nat) : Option (Fin n → Nat) :=
  if h : i < n then some (Function.update a ⟨i, h⟩ v) else none

/-- Checked read `a[i][j]` of a two-dimensional array. -/
def readAt2 {n m : Nat} (a : Fin n → Fin m → Nat) (i j : Nat) : Option Nat :=
  if hi : i < n then readAt (a ⟨i, hi⟩) j else none

/-- Checked write `a[i][j] = v` of a two-dimensional array. -/
def writeAt2 {n m : Nat} (a : Fin n → Fin m → Nat) (i j v : Nat) :
    Option (Fin n → Fin m → Nat) :=
  if hi : i < n then
    (writeAt (a ⟨i, hi⟩) j v).map (fun row => Function.update a ⟨i, hi⟩ row)
  else none

/-- Counted loop `for (uint8_t k = 0; k < n; ++k) body`. -/
def forRange {σ : Type} (n : Nat) (body : Nat → σ → Option σ) (s : σ) : Option σ :=
  (List.range n).foldlM (fun acc k => body k acc) s

/-- Subtraction of two `uint32_t` values, `a - b` modulo `2^32`. -/
def sub32 (a b : Nat) : Nat :=
  (a % 4294967296 + (4294967296 - b % 4294967296)) % 4294967296

/-- The copy loop `for (i = 0; i < MAX_CHANS; i++) rcvr[i] = ppmTmp[i];`. -/
def copyFrame (s : State) : Option State :=
  forRange MAX_CHANS (fun i st => do
    let v ← readAt st.ppmTmp i
    let r ← writeAt st.rcvr i v
    pure { st with rcvr := r }) s

/-- The rising-edge handler `isr`; `now` is the value returned by `micros()`. -/
def isr (c : Consts) (now : Nat) (s : State) : Option State := do
  let stopPulse := now
  let pulseWidth := sub32 stopPulse s.startPulse
  let s1 : State :=
    if pulseWidth < c.MINPULSE ∨ (pulseWidth > c.MAXPULSE ∧ pulseWidth < c.SYNCPULSE) then
      { s with ppmError := (s.ppmError + 1) % 65536, ppmCounter := MAX_CHANS + 1 }
    else s
  let s2 ←
    if pulseWidth ≥ c.SYNCPULSE then do
      let s3 ← if s1.ppmCounter ≤ MAX_CHANS then copyFrame s1 else pure s1
      pure { s3 with ppmCounter := 0, got_new_frame := true }
    else if s1.ppmCounter < MAX_CHANS then do
      let t ← writeAt s1.ppmTmp s1.ppmCounter (pulseWidth % 65536)
      pure { s1 with ppmTmp := t, ppmCounter := (s1.ppmCounter + 1) % 256 }
    else pure s1
  pure { s2 with startPulse := stopPulse }

/-- The method `CPPMRX::begin` with `_nchan = nchan`; `pinMode` and `attachInterrupt`
act on the platform only. -/
def begin (nchan : Nat) (s : State) : Option State := do
  let s1 ← forRange nchan (fun k st => do
    let r ← writeAt st.rcvr k 1500
    let t ← writeAt st.ppmTmp k 1500
    pure { st with rcvr := r, ppmTmp := t }) s
  let s2 := { s1 with ppmCounter := MAX_CHANS }
  let s3 := { s2 with ppmCounter := 0 }
  pure { s3 with ppmError := 0 }

/-- The method `CPPMRX::gotNewFrame`: the returned value and the state left behind. -/
def gotNewFrame (s : State) : Bool × State :=
  let retval := s.got_new_frame
  let s1 := if s.got_new_frame then { s with got_new_frame := false } else s
  (retval, s1)

/-- One edge arriving `w` microseconds after the previous one: the 32-bit clock
reads `startPulse + w` modulo `2^32` when `isr` runs. -/
def isrAfter (c : Consts) (w : Nat) (s : State) : Option State :=
  isr c ((s.startPulse + w) % 4294967296) s

/-- A sequence of edges given by their inter-edge intervals. -/
def runIntervals (c : Consts) : List Nat → State → Option State
  | [], s => some s
  | w :: ws, s => (isrAfter c w s).bind (runIntervals c ws)

/-- An interval that `isr` counts as malformed: shorter than `MINPULSE`, or longer
than `MAXPULSE` while shorter than `SYNCPULSE`. -/
def isErrorPulse (c : Consts) (w : Nat) : Prop :=
  w < c.MINPULSE ∨ (c.MAXPULSE < w ∧ w < c.SYNCPULSE)

instance (c : Consts) (w : Nat) : Decidable (isErrorPulse c w) := by
  unfold isErrorPulse; infer_instance

/-- What happens to the decoder from outside: a rising edge `w` microseconds after the
previous one, or a call of `gotNewFrame` by the application. -/
inductive Event where
  | edge (w : Nat)
  | poll

/-- Run a trace of events; the result holds the values returned by the `gotNewFrame`
calls, in order, and the final state. -/
def runEvents (c : Consts) : List Event → State → Option (List Bool × State)
  | [], s => some ([], s)
  | Event.edge w :: es, s => (isrAfter c w s).bind (runEvents c es)
  | Event.poll :: es, s =>
    (runEvents c es (gotNewFrame s).2).map (fun r => ((gotNewFrame s).1 :: r.1, r.2))

/-- The read-and-clear contract in the spec's words: a poll answers whether a sync
pulse was seen since the previous poll (`pending`), and then nothing is pending. -/
def pollAnswers (c : Consts) : List Event → Bool → List Bool
  | [], _ => []
  | Event.edge w :: es, pending =>
    pollAnswers c es (pending || decide (c.SYNCPULSE ≤ w % 4294967296))
  | Event.poll :: es, pending => pending :: pollAnswers c es false

/-- Following the claim's words (C3): the pulse widths "measured in a frame that ended
in a sync pulse with no error pulse in it".  The interval sequence is cut into frames
at the sync pulses; `cur` collects the channel widths of the frame in progress and
`bad` records whether it has held an error pulse. -/
def validatedWidths (c : Consts) : List Nat → List Nat → Bool → List Nat
  | [], _, _ => []
  | w :: ws, cur, bad =>
    if isErrorPulse c w then validatedWidths c ws cur true
    else if c.SYNCPULSE ≤ w then
      (if bad then [] else cur) ++ validatedWidths c ws [] false
    else validatedWidths c ws (cur ++ [w]) bad

/-- The loop `for (uint8_t a = 0; a < 4; a++) rcDataMean[chan] += rcData4Values[chan][a];`
with the `uint16_t` accumulator wrapping at `2^16`. -/
def accumulate (chan : Nat) (s : State) : Option State :=
  forRange 4 (fun a st => do
    let acc ← readAt st.rcDataMean chan
    let v ← readAt2 st.rcData4Values chan a
    let m ← writeAt st.rcDataMean chan ((acc + v) % 65536)
    pure { st with rcDataMean := m }) s

/-- Body of the channel loop of `CPPMRX::computeRC` for channel `chan`; `rawRC` is the
local copy of the committed array and `p.2` the caller's array `rcData`, reached
through a pointer.  The operands of `+ 2`, `>> 2`, `- 3`, `+ 3`, `- 2` and of the two
comparisons are promoted to an `int` wider than 16 bits, so these are exact integer
operations; every store into a `uint16_t` reduces modulo `2^16`. -/
def computeRC_chan (rawRC : Fin 8 → Nat) (chan : Nat) (p : State × (Nat → Nat)) :
    Option (State × (Nat → Nat)) := do
  let s := p.1
  let rcData := p.2
  let raw ← readAt rawRC chan
  let h ← writeAt2 s.rcData4Values chan s.rc4ValuesIndex (raw % 65536)
  let s := { s with rcData4Values := h }
  let m ← writeAt s.rcDataMean chan 0
  let s := { s with rcDataMean := m }
  let s ← accumulate chan s
  let acc ← readAt s.rcDataMean chan
  let m ← writeAt s.rcDataMean chan ((acc + 2) / 4 % 65536)
  let s := { s with rcDataMean := m }
  let mean ← readAt s.rcDataMean chan
  let rcData :=
    if (mean : Int) < ((rcData chan % 65536 : Nat) : Int) - 3 then
      Function.update rcData chan ((mean + 2) % 65536)
    else rcData
  let mean ← readAt s.rcDataMean chan
  let rcData :=
    if (mean : Int) > ((rcData chan % 65536 : Nat) : Int) + 3 then
      Function.update rcData chan (((mean : Int) - 2) % 65536).toNat
    else rcData
  pure (s, rcData)

/-- The method `CPPMRX::computeRC` with `_nchan = nchan`: the state left behind and the
caller's array `rcData` after the call.  The local array `rawRC` is uninitialised in
the source; it is read only where it has been written, so its initial content (zeros
here) does not matter. -/
def computeRC (nchan : Nat) (rcData : Nat → Nat) (s : State) :
    Option (State × (Nat → Nat)) := do
  let s := { s with rc4ValuesIndex := (s.rc4ValuesIndex + 1) % 256 }
  let s := if s.rc4ValuesIndex = 4 then { s with rc4ValuesIndex := 0 } else s
  let rawRC ← forRange nchan (fun k raw => do
    let v ← readAt s.rcvr k
    writeAt raw k v) (fun _ => 0)
  forRange nchan (computeRC_chan rawRC) (s, rcData)

/-- Value left in `rcDataMean[chan]` by the channel loop for a history row `row`: the
wrapping 16-bit sum of the four slots, plus 2, shifted right by 2. -/
def meanOf (row : Fin 4 → Nat) : Nat :=
  (((((0 + row 0) % 65536 + row 1) % 65536 + row 2) % 65536 + row 3) % 65536 + 2) / 4 % 65536

/-- Value left in `rcData[chan]` by the two `if` statements of the channel loop, for
the mean `mean` and the caller's value `e`. -/
def deadband (mean e : Nat) : Nat :=
  let e1 := if (mean : Int) < ((e % 65536 : Nat) : Int) - 3 then (mean + 2) % 65536 else e
  if (mean : Int) > ((e1 % 65536 : Nat) : Int) + 3 then (((mean : Int) - 2) % 65536).toNat
  else e1

/-- History row of channel `k` once `computeRC` has pushed the committed value: the
slot at the advanced index holds `rcvr[k]`, the other three are as before. -/
def pushed (s : State) (k : Fin 8) : Fin 4 → Nat :=
  fun a => if a.val = (s.rc4ValuesIndex + 1) % 4 then s.rcvr k % 65536
    else s.rcData4Values k a

/-- A number of consecutive `computeRC` calls on the caller's array, no edge being
handled in between. -/
def computeRC_iter (nchan : Nat) : Nat → (Nat → Nat) → State → Option (State × (Nat → Nat))
  | 0, rcData, s => some (s, rcData)
  | n + 1, rcData, s =>
    (computeRC nchan rcData s).bind (fun r => computeRC_iter nchan n r.2 r.1)

/-- Following the claim's words (C7): the estimate "is nudged down by exactly 2 per
call while the gap between estimate and mean exceeds 3, then holds". -/
def nudgedByTwo (before mean after : Nat) : Prop :=
  if before > mean + 3 ∨ mean > before + 3 then after + 2 = before else after = before

instance (before mean after : Nat) : Decidable (nudgedByTwo before mean after) := by
  unfold nudgedByTwo; infer_instance

/-- The state `s` with every element of the committed array replaced by `v`, as a sync
pulse closing a frame of eight pulses of width `v` leaves it. -/
def setCommitted (v : Nat) (s : State) : State :=
  { s with rcvr := fun _ => v }

/-- Following the spec's words (section 4.1, steps 2 and 3): the exclusive three-way
classifier applied to the pulse width `pulseWidth`.  An error pulse increments the error
counter and sets the cursor to the sentinel 9 (channel count plus one), nothing else;
else a sync pulse copies the working array to the committed array if the cursor is at
most 8, resets the cursor and sets the flag; else a channel pulse is stored at the
cursor, which moves on, if the cursor is below 8; in all three cases the pulse-start
timestamp becomes `now`.  The increment is the plain `+ 1` of a "monotonically
incrementing count", and the width is stored as it is. -/
def isrSpec (c : Consts) (now pulseWidth : Nat) (s : State) : State :=
  let s1 : State :=
    if pulseWidth < c.MINPULSE ∨ (pulseWidth > c.MAXPULSE ∧ pulseWidth < c.SYNCPULSE) then
      { s with ppmError := s.ppmError + 1, ppmCounter := 9 }
    else if pulseWidth ≥ c.SYNCPULSE then
      { s with rcvr := if s.ppmCounter ≤ 8 then s.ppmTmp else s.rcvr,
               ppmCounter := 0, got_new_frame := true }
    else if h : s.ppmCounter < 8 then
      { s with ppmTmp := Function.update s.ppmTmp ⟨s.ppmCounter, h⟩ pulseWidth,
               ppmCounter := s.ppmCounter + 1 }
    else s
  { s1 with startPulse := now }

/-- Number of error pulses in a sequence of intervals. -/
def errorCount (c : Consts) (ws : List Nat) : Nat :=
  ws.countP (fun w => decide (isErrorPulse c w))

/-- Following the claim's words (C15): what the frame in progress has seen since the
last sync pulse: whether an error pulse (first component), and its channel pulses up
to the first error pulse (second component). -/
def frameProgress (c : Consts) : List Nat → Bool × List Nat → Bool × List Nat
  | [], p => p
  | w :: ws, p =>
    if isErrorPulse c w then frameProgress c ws (true, p.2)
    else if c.SYNCPULSE ≤ w then frameProgress c ws (false, [])
    else frameProgress c ws (p.1, if p.1 then p.2 else p.2 ++ [w])

/-- The cursor invariant for a frame in progress `p`: the cursor is 9 if the frame has
seen an error pulse, and otherwise the number of its channel pulses capped at 8, the
first of them stored in the working array from slot 0 on. -/
def cursorInv (s : State) (p : Bool × List Nat) : Prop :=
  s.ppmCounter = (if p.1 then 9 else min p.2.length 8) ∧
  (p.1 = false → ∀ i : Fin 8, i.val < p.2.length → s.ppmTmp i = p.2.getD i.val 0)

/-- A sequence of `isr` calls given by the successive clock readings of `micros()`. -/
def runClock (c : Consts) : List Nat → State → Option State
  | [], s => some s
  | now :: rest, s => (isr c now s).bind (runClock c rest)

/-! ## Theorems -/

theorem sub32_after (s w : Nat) (hw : w < 4294967296) :
    sub32 ((s + w) % 4294967296) s = w := by
  unfold sub32
  omega

theorem forRange_succ {σ : Type} (n : Nat) (body : Nat → σ → Option σ) (s : σ) :
    forRange (n + 1) body s = (forRange n body s).bind (body n) := by
  unfold forRange
  rw [List.range_succ, List.foldlM_append]
  simp

theorem forRange_zero {σ : Type} (body : Nat → σ → Option σ) (s : σ) :
    forRange 0 body s = some s := by
  simp [forRange]

theorem copyFrame_eq (s : State) : copyFrame s = some { s with rcvr := s.ppmTmp } := by
  unfold copyFrame
  simp only [MAX_CHANS, forRange_succ, forRange_zero]
  simp [readAt, writeAt]
  funext i
  fin_cases i <;> simp [Function.update]

/-- A width in the channel range with room left in the working array is stored at the
cursor and the cursor moves on. -/
theorem isr_channel (c : Consts) (now : Nat) (s : State)
    (h1 : c.MINPULSE ≤ sub32 now s.startPulse) (h2 : sub32 now s.startPulse ≤ c.MAXPULSE)
    (h3 : sub32 now s.startPulse < c.SYNCPULSE) (hc : s.ppmCounter < 8) :
    isr c now s = some { s with
      ppmTmp := Function.update s.ppmTmp ⟨s.ppmCounter, hc⟩ (sub32 now s.startPulse % 65536),
      ppmCounter := s.ppmCounter + 1,
      startPulse := now } := by
  have e1 : ¬ (sub32 now s.startPulse < c.MINPULSE ∨
      (sub32 now s.startPulse > c.MAXPULSE ∧ sub32 now s.startPulse < c.SYNCPULSE)) := by omega
  have e2 : ¬ (sub32 now s.startPulse ≥ c.SYNCPULSE) := by omega
  have e3 : (s.ppmCounter + 1) % 256 = s.ppmCounter + 1 := by omega
  simp [isr, e1, e2, hc, writeAt, e3]

/-- A width in the channel range with the cursor at or past the capacity changes
only the pulse-start timestamp. -/
theorem isr_channel_full (c : Consts) (now : Nat) (s : State)
    (h1 : c.MINPULSE ≤ sub32 now s.startPulse) (h2 : sub32 now s.startPulse ≤ c.MAXPULSE)
    (h3 : sub32 now s.startPulse < c.SYNCPULSE) (hc : 8 ≤ s.ppmCounter) :
    isr c now s = some { s with startPulse := now } := by
  have e1 : ¬ (sub32 now s.startPulse < c.MINPULSE ∨
      (sub32 now s.startPulse > c.MAXPULSE ∧ sub32 now s.startPulse < c.SYNCPULSE)) := by omega
  have e2 : ¬ (sub32 now s.startPulse ≥ c.SYNCPULSE) := by omega
  have e3 : ¬ (s.ppmCounter < 8) := by omega
  simp [isr, e1, e2, e3]

/-- A malformed width below the sync threshold bumps the error counter and poisons
the cursor. -/
theorem isr_error (c : Consts) (now : Nat) (s : State)
    (h1 : isErrorPulse c (sub32 now s.startPulse))
    (h3 : sub32 now s.startPulse < c.SYNCPULSE) :
    isr c now s = some { s with
      ppmError := (s.ppmError + 1) % 65536,
      ppmCounter := 9,
      startPulse := now } := by
  have e1 : (sub32 now s.startPulse < c.MINPULSE ∨
      (sub32 now s.startPulse > c.MAXPULSE ∧ sub32 now s.startPulse < c.SYNCPULSE)) := by
    unfold isErrorPulse at h1; omega
  have e2 : ¬ (sub32 now s.startPulse ≥ c.SYNCPULSE) := by omega
  simp [isr, e1, e2]

/-- A sync width that is not malformed, met with an unpoisoned cursor, commits the
working array. -/
theorem isr_sync_commit (c : Consts) (now : Nat) (s : State)
    (h1 : ¬ isErrorPulse c (sub32 now s.startPulse))
    (h3 : c.SYNCPULSE ≤ sub32 now s.startPulse) (hc : s.ppmCounter ≤ 8) :
    isr c now s = some { s with
      rcvr := s.ppmTmp,
      ppmCounter := 0,
      got_new_frame := true,
      startPulse := now } := by
  have e1 : ¬ (sub32 now s.startPulse < c.MINPULSE ∨
      (sub32 now s.startPulse > c.MAXPULSE ∧ sub32 now s.startPulse < c.SYNCPULSE)) := by
    unfold isErrorPulse at h1; omega
  have e2 : (sub32 now s.startPulse ≥ c.SYNCPULSE) := by omega
  simp [isr, e1, e2, hc, copyFrame_eq]

/-- A sync width met with a poisoned cursor leaves the committed array alone. -/
theorem isr_sync_drop (c : Consts) (now : Nat) (s : State)
    (h1 : ¬ isErrorPulse c (sub32 now s.startPulse))
    (h3 : c.SYNCPULSE ≤ sub32 now s.startPulse) (hc : 8 < s.ppmCounter) :
    isr c now s = some { s with
      ppmCounter := 0,
      got_new_frame := true,
      startPulse := now } := by
  have e1 : ¬ (sub32 now s.startPulse < c.MINPULSE ∨
      (sub32 now s.startPulse > c.MAXPULSE ∧ sub32 now s.startPulse < c.SYNCPULSE)) := by
    unfold isErrorPulse at h1; omega
  have e2 : (sub32 now s.startPulse ≥ c.SYNCPULSE) := by omega
  have e3 : ¬ (s.ppmCounter ≤ 8) := by omega
  simp [isr, e1, e2, e3]

/-- A width that is both below `MINPULSE` and at least `SYNCPULSE` (possible only for
thresholds out of order) is counted as an error and then handled as a sync that
commits nothing. -/
theorem isr_error_sync (c : Consts) (now : Nat) (s : State)
    (h1 : isErrorPulse c (sub32 now s.startPulse))
    (h3 : c.SYNCPULSE ≤ sub32 now s.startPulse) :
    isr c now s = some { s with
      ppmError := (s.ppmError + 1) % 65536,
      ppmCounter := 0,
      got_new_frame := true,
      startPulse := now } := by
  have e1 : (sub32 now s.startPulse < c.MINPULSE ∨
      (sub32 now s.startPulse > c.MAXPULSE ∧ sub32 now s.startPulse < c.SYNCPULSE)) := by
    unfold isErrorPulse at h1; omega
  have e2 : (sub32 now s.startPulse ≥ c.SYNCPULSE) := by omega
  simp [isr, e1, e2]

/-- Effect of a run of channel-range pulses from an unpoisoned cursor: the widths land
in the working array from the cursor on, at most up to the capacity; nothing else but
the cursor and the timestamp moves. -/
theorem run_channels (c : Consts) (hc : c.WF) :
    ∀ (ws : List Nat) (s : State), (∀ w ∈ ws, c.MINPULSE ≤ w ∧ w ≤ c.MAXPULSE) →
      s.ppmCounter ≤ 8 →
      ∃ s2, runIntervals c ws s = some s2 ∧ s2.rcvr = s.rcvr ∧
        s2.got_new_frame = s.got_new_frame ∧ s2.ppmError = s.ppmError ∧
        s2.ppmCounter = min (s.ppmCounter + ws.length) 8 ∧
        (∀ i : Fin 8, s2.ppmTmp i =
          if s.ppmCounter ≤ i.val ∧ i.val < s.ppmCounter + ws.length
          then ws.getD (i.val - s.ppmCounter) 0 else s.ppmTmp i) := by
  obtain ⟨c1, c2, c3⟩ := hc
  intro ws
  induction ws with
  | nil =>
    intro s _ h8
    refine ⟨s, rfl, rfl, rfl, rfl, ?_, ?_⟩
    · simp; omega
    · intro i
      have : ¬ (s.ppmCounter ≤ i.val ∧ i.val < s.ppmCounter + ([] : List Nat).length) := by
        simp
      rw [if_neg this]
  | cons w ws ih =>
    intro s hv h8
    have hw := hv w (List.mem_cons_self w ws)
    have hws : ∀ x ∈ ws, c.MINPULSE ≤ x ∧ x ≤ c.MAXPULSE :=
      fun x hx => hv x (List.mem_cons_of_mem w hx)
    have hw32 : w < 4294967296 := by omega
    have hsub : sub32 ((s.startPulse + w) % 4294967296) s.startPulse = w :=
      sub32_after s.startPulse w hw32
    by_cases hlt : s.ppmCounter < 8
    · have hstep := isr_channel c ((s.startPulse + w) % 4294967296) s
        (by rw [hsub]; exact hw.1) (by rw [hsub]; exact hw.2) (by rw [hsub]; omega) hlt
      rw [hsub] at hstep
      obtain ⟨s2, hrun, hr, hg, he, hcnt, htmp⟩ := ih _ hws
        (show ({ s with
          ppmTmp := Function.update s.ppmTmp ⟨s.ppmCounter, hlt⟩ (w % 65536),
          ppmCounter := s.ppmCounter + 1,
          startPulse := (s.startPulse + w) % 4294967296 } : State).ppmCounter ≤ 8 from by
            simp; omega)
      refine ⟨s2, ?_, hr, hg, he, ?_, ?_⟩
      · simp only [runIntervals, isrAfter, hstep, Option.bind]
        exact hrun
      · rw [hcnt]; simp only [List.length_cons]; omega
      · intro i
        rw [htmp i]
        simp only [List.length_cons]
        have hmod : w % 65536 = w := by omega
        by_cases hi : i.val = s.ppmCounter
        · have hieq : i = ⟨s.ppmCounter, hlt⟩ := Fin.ext hi
          have n1 : ¬ (s.ppmCounter + 1 ≤ i.val ∧ i.val < s.ppmCounter + 1 + ws.length) := by
            omega
          have n2 : (s.ppmCounter ≤ i.val ∧ i.val < s.ppmCounter + (ws.length + 1)) := by
            omega
          rw [if_neg n1, if_pos n2, hi, Nat.sub_self, hieq]
          simp [hmod]
        · have hine : i ≠ ⟨s.ppmCounter, hlt⟩ := fun h => hi (by rw [h])
          by_cases hin : s.ppmCounter + 1 ≤ i.val ∧ i.val < s.ppmCounter + 1 + ws.length
          · have n2 : (s.ppmCounter ≤ i.val ∧ i.val < s.ppmCounter + (ws.length + 1)) := by
              omega
            rw [if_pos hin, if_pos n2]
            have hsplit : i.val - s.ppmCounter = (i.val - (s.ppmCounter + 1)) + 1 := by omega
            rw [hsplit, List.getD_cons_succ]
          · have n2 : ¬ (s.ppmCounter ≤ i.val ∧ i.val < s.ppmCounter + (ws.length + 1)) := by
              omega
            rw [if_neg hin, if_neg n2]
            simp [Function.update, hine]
    · have h8eq : s.ppmCounter = 8 := by omega
      have hstep := isr_channel_full c ((s.startPulse + w) % 4294967296) s
        (by rw [hsub]; exact hw.1) (by rw [hsub]; exact hw.2) (by rw [hsub]; omega) (by omega)
      obtain ⟨s2, hrun, hr, hg, he, hcnt, htmp⟩ := ih _ hws
        (show ({ s with startPulse := (s.startPulse + w) % 4294967296 } : State).ppmCounter ≤ 8
          from h8)
      refine ⟨s2, ?_, hr, hg, he, ?_, ?_⟩
      · simp only [runIntervals, isrAfter, hstep, Option.bind]
        exact hrun
      · rw [hcnt]; simp only [List.length_cons]; omega
      · intro i
        rw [htmp i]
        have hi8 := i.isLt
        have n1 : ¬ (s.ppmCounter ≤ i.val ∧ i.val < s.ppmCounter + ws.length) := by omega
        have n2 : ¬ (s.ppmCounter ≤ i.val ∧ i.val < s.ppmCounter + (w :: ws).length) := by
          omega
        rw [if_neg n2]
        exact if_neg n1

/-- Running a concatenation of interval sequences. -/
theorem runIntervals_append (c : Consts) :
    ∀ (xs ys : List Nat) (s : State),
      runIntervals c (xs ++ ys) s = (runIntervals c xs s).bind (runIntervals c ys) := by
  intro xs
  induction xs with
  | nil => intro ys s; simp [runIntervals]
  | cons x xs ih =>
    intro ys s
    simp only [List.cons_append, runIntervals]
    cases h : isrAfter c x s with
    | none => simp
    | some s1 => simp [ih]

/-- Every field of the state after one `isr` call, in terms of the measured width
`sub32 now s.startPulse`; in particular the call always returns. -/
theorem isr_fields (c : Consts) (now : Nat) (s : State) :
    ∃ s1, isr c now s = some s1 ∧
      s1.startPulse = now ∧
      s1.got_new_frame =
        (if c.SYNCPULSE ≤ sub32 now s.startPulse then true else s.got_new_frame) ∧
      s1.ppmError =
        (if isErrorPulse c (sub32 now s.startPulse) then (s.ppmError + 1) % 65536
         else s.ppmError) ∧
      s1.ppmCounter =
        (if c.SYNCPULSE ≤ sub32 now s.startPulse then 0
         else if isErrorPulse c (sub32 now s.startPulse) then 9
         else if s.ppmCounter < 8 then s.ppmCounter + 1 else s.ppmCounter) ∧
      s1.rcvr =
        (if c.SYNCPULSE ≤ sub32 now s.startPulse ∧ ¬ isErrorPulse c (sub32 now s.startPulse)
            ∧ s.ppmCounter ≤ 8 then s.ppmTmp else s.rcvr) ∧
      (∀ i : Fin 8, s1.ppmTmp i =
        if sub32 now s.startPulse < c.SYNCPULSE ∧ ¬ isErrorPulse c (sub32 now s.startPulse)
            ∧ i.val = s.ppmCounter then sub32 now s.startPulse % 65536 else s.ppmTmp i) ∧
      s1.rcData4Values = s.rcData4Values ∧ s1.rcDataMean = s.rcDataMean ∧
      s1.rc4ValuesIndex = s.rc4ValuesIndex := by
  by_cases hs : c.SYNCPULSE ≤ sub32 now s.startPulse
  · have hns : ¬ (sub32 now s.startPulse < c.SYNCPULSE) := by omega
    by_cases he : isErrorPulse c (sub32 now s.startPulse)
    · refine ⟨_, isr_error_sync c now s he hs, ?_⟩
      simp [hs, he, hns]
    · by_cases hc : s.ppmCounter ≤ 8
      · refine ⟨_, isr_sync_commit c now s he hs hc, ?_⟩
        simp [hs, he, hns, hc]
      · refine ⟨_, isr_sync_drop c now s he hs (by omega), ?_⟩
        simp [hs, he, hns, hc]
  · have hns : sub32 now s.startPulse < c.SYNCPULSE := by omega
    by_cases he : isErrorPulse c (sub32 now s.startPulse)
    · refine ⟨_, isr_error c now s he hns, ?_⟩
      simp [hs, he, hns]
    · have hv : c.MINPULSE ≤ sub32 now s.startPulse ∧ sub32 now s.startPulse ≤ c.MAXPULSE := by
        unfold isErrorPulse at he; omega
      by_cases hc : s.ppmCounter < 8
      · refine ⟨_, isr_channel c now s hv.1 hv.2 hns hc, ?_⟩
        simp only [hs, he, hns, hc, if_true, if_false, not_false_eq_true, true_and, and_true,
          false_and]
        intro i
        by_cases hi : i.val = s.ppmCounter
        · have hieq : i = ⟨s.ppmCounter, hc⟩ := Fin.ext hi
          rw [if_pos hi, hieq, Function.update_same]
        · have hine : i ≠ ⟨s.ppmCounter, hc⟩ := fun h => hi (by rw [h])
          simp [hi, Function.update, hine]
      · refine ⟨_, isr_channel_full c now s hv.1 hv.2 hns (by omega), ?_⟩
        simp only [hs, he, hns, hc, if_true, if_false, not_false_eq_true, true_and, and_true,
          false_and]
        intro i
        have hi : ¬ (i.val = s.ppmCounter) := by have := i.isLt; omega
        simp [hi]

/-- The all-fields description for an edge that arrives `w` microseconds after the
previous one. -/
theorem isrAfter_fields (c : Consts) (w : Nat) (s : State) (hw : w < 4294967296) :
    ∃ s1, isrAfter c w s = some s1 ∧
      s1.startPulse = (s.startPulse + w) % 4294967296 ∧
      s1.got_new_frame = (if c.SYNCPULSE ≤ w then true else s.got_new_frame) ∧
      s1.ppmError = (if isErrorPulse c w then (s.ppmError + 1) % 65536 else s.ppmError) ∧
      s1.ppmCounter =
        (if c.SYNCPULSE ≤ w then 0
         else if isErrorPulse c w then 9
         else if s.ppmCounter < 8 then s.ppmCounter + 1 else s.ppmCounter) ∧
      s1.rcvr =
        (if c.SYNCPULSE ≤ w ∧ ¬ isErrorPulse c w ∧ s.ppmCounter ≤ 8 then s.ppmTmp
         else s.rcvr) ∧
      (∀ i : Fin 8, s1.ppmTmp i =
        if w < c.SYNCPULSE ∧ ¬ isErrorPulse c w ∧ i.val = s.ppmCounter then w % 65536
        else s.ppmTmp i) ∧
      s1.rcData4Values = s.rcData4Values ∧ s1.rcDataMean = s.rcDataMean ∧
      s1.rc4ValuesIndex = s.rc4ValuesIndex := by
  have h := isr_fields c ((s.startPulse + w) % 4294967296) s
  rw [sub32_after s.startPulse w hw] at h
  exact h

/-- A frame of channel-range pulses started at cursor 0 and closed by a sync pulse is
committed: the first eight widths (or fewer, if the frame is shorter) reach the
committed array, later ones are dropped. -/
theorem run_frame_commit (c : Consts) (hc : c.WF) (ws : List Nat) (y : Nat) (s : State)
    (hv : ∀ w ∈ ws, c.MINPULSE ≤ w ∧ w ≤ c.MAXPULSE) (h0 : s.ppmCounter = 0)
    (hy : c.SYNCPULSE ≤ y) (hy32 : y < 4294967296) :
    ∃ s2, runIntervals c (ws ++ [y]) s = some s2 ∧
      (∀ i : Fin 8, s2.rcvr i = if i.val < ws.length then ws.getD i.val 0 else s.ppmTmp i) ∧
      s2.ppmTmp = s2.rcvr ∧ s2.ppmCounter = 0 ∧ s2.got_new_frame = true ∧
      s2.ppmError = s.ppmError := by
  obtain ⟨s1, hrun, _, _, he, hcnt, htmp⟩ := run_channels c hc ws s hv (by omega)
  obtain ⟨s2, hstep, _, hg2, he2, hc2, hr2, ht2, _⟩ := isrAfter_fields c y s1 hy32
  obtain ⟨c1, c2, c3⟩ := hc
  have hne : ¬ isErrorPulse c y := by unfold isErrorPulse; omega
  have hcnt8 : s1.ppmCounter ≤ 8 := by rw [hcnt]; omega
  have hns : ¬ (y < c.SYNCPULSE) := by omega
  have hrcvr : s2.rcvr = s1.ppmTmp := by
    rw [hr2, if_pos ⟨hy, hne, hcnt8⟩]
  have htmp2 : s2.ppmTmp = s1.ppmTmp := by
    funext i
    rw [ht2 i, if_neg (fun h => hns h.1)]
  refine ⟨s2, ?_, ?_, ?_, ?_, ?_, ?_⟩
  · rw [runIntervals_append, hrun]
    simp [runIntervals, hstep]
  · intro i
    rw [hrcvr, htmp i, h0]
    simp
  · rw [htmp2, hrcvr]
  · rw [hc2, if_pos hy]
  · rw [hg2, if_pos hy]
  · rw [he2, if_neg hne, he]

/-- C1 (full valid frame commit): from any state whose cursor is 0, eight intervals
`w 0 .. w 7`, each within `[MINPULSE, MAXPULSE]`, followed by one interval of at least
`SYNCPULSE`, are all handled by `isr` and leave `rcvr[i] = w i` for every `i` (same
order, no truncation), the cursor at 0 and `got_new_frame` set. -/
theorem isr_full_frame_commit (c : Consts) (hc : c.WF) (s : State) (w : Fin 8 → Nat)
    (y : Nat) (h0 : s.ppmCounter = 0) (hw : ∀ i, c.MINPULSE ≤ w i ∧ w i ≤ c.MAXPULSE)
    (hy : c.SYNCPULSE ≤ y) (hy32 : y < 4294967296) :
    ∃ s2, runIntervals c [w 0, w 1, w 2, w 3, w 4, w 5, w 6, w 7, y] s = some s2 ∧
      (∀ i, s2.rcvr i = w i) ∧ s2.ppmCounter = 0 ∧ s2.got_new_frame = true := by
  have hv : ∀ x ∈ [w 0, w 1, w 2, w 3, w 4, w 5, w 6, w 7],
      c.MINPULSE ≤ x ∧ x ≤ c.MAXPULSE := by
    intro x hx
    simp only [List.mem_cons, List.mem_singleton, List.not_mem_nil, or_false] at hx
    rcases hx with h | h | h | h | h | h | h | h <;> rw [h] <;> exact hw _
  obtain ⟨s2, hrun, hr, _, hcnt, hg, _⟩ :=
    run_frame_commit c hc [w 0, w 1, w 2, w 3, w 4, w 5, w 6, w 7] y s hv h0 hy hy32
  refine ⟨s2, hrun, ?_, hcnt, hg⟩
  intro i
  rw [hr i]
  fin_cases i <;> simp

/-- C1, the spec's scenario: thresholds 800 / 2200 / 2700 and the intervals
`[1500 x 8, 3000]` fed to the zero-initialised state. -/
theorem isr_full_frame_commit_witness :
    ∃ s2, runIntervals ⟨800, 2200, 2700⟩
        [1500, 1500, 1500, 1500, 1500, 1500, 1500, 1500, 3000] zeroInit = some s2 ∧
      (∀ i, s2.rcvr i = 1500) ∧ s2.ppmCounter = 0 ∧ s2.got_new_frame = true :=
  isr_full_frame_commit ⟨800, 2200, 2700⟩ (by decide) zeroInit (fun _ => 1500) 3000 rfl
    (fun _ => ⟨show 800 ≤ 1500 by decide, show 1500 ≤ 2200 by decide⟩) (by decide) (by decide)

/-- A run of intervals below the sync threshold never touches the committed array or
the new-frame flag, and a cursor that is poisoned at the start, or gets poisoned by an
error pulse on the way, is poisoned at the end. -/
theorem run_nonsync (c : Consts) (hc : c.WF) :
    ∀ (ws : List Nat) (s : State), (∀ w ∈ ws, w < c.SYNCPULSE) →
      ∃ s2, runIntervals c ws s = some s2 ∧ s2.rcvr = s.rcvr ∧
        s2.got_new_frame = s.got_new_frame ∧
        ((s.ppmCounter = 9 ∨ ∃ w ∈ ws, isErrorPulse c w) → s2.ppmCounter = 9) := by
  intro ws
  induction ws with
  | nil =>
    intro s _
    refine ⟨s, rfl, rfl, rfl, ?_⟩
    intro h
    rcases h with h | ⟨w, hw, _⟩
    · exact h
    · simp at hw
  | cons w ws ih =>
    intro s hv
    have hw := hv w (List.mem_cons_self w ws)
    have hw32 : w < 4294967296 := by have := hc.2.2; omega
    have hns : ¬ (c.SYNCPULSE ≤ w) := by omega
    obtain ⟨s1, hstep, _, hg1, _, hc1, hr1, _⟩ := isrAfter_fields c w s hw32
    obtain ⟨s2, hrun, hr2, hg2, hp2⟩ := ih s1 (fun x hx => hv x (List.mem_cons_of_mem w hx))
    refine ⟨s2, ?_, ?_, ?_, ?_⟩
    · simp only [runIntervals, hstep, Option.bind]
      exact hrun
    · rw [hr2, hr1, if_neg (fun h => hns h.1)]
    · rw [hg2, hg1, if_neg hns]
    · intro h
      apply hp2
      rw [if_neg hns] at hc1
      rcases h with h | ⟨x, hx, hxe⟩
      · left
        rw [hc1, h]
        by_cases he : isErrorPulse c w
        · rw [if_pos he]
        · rw [if_neg he, if_neg (by omega)]
      · rcases List.mem_cons.mp hx with hxw | hxws
        · left
          rw [hc1, if_pos (hxw ▸ hxe)]
        · right
          exact ⟨x, hxws, hxe⟩

/-- C2 (malformed frame is dropped but still signalled): from any state, a sequence of
intervals all below `SYNCPULSE` that contains at least one error pulse, followed by one
interval of at least `SYNCPULSE`, leaves every element of `rcvr` as it was before the
sequence, sets `got_new_frame` and resets the cursor to 0. -/
theorem isr_malformed_frame_dropped (c : Consts) (hc : c.WF) (s : State) (ws : List Nat)
    (y : Nat) (hns : ∀ w ∈ ws, w < c.SYNCPULSE) (herr : ∃ w ∈ ws, isErrorPulse c w)
    (hy : c.SYNCPULSE ≤ y) (hy32 : y < 4294967296) :
    ∃ s2, runIntervals c (ws ++ [y]) s = some s2 ∧
      (∀ i, s2.rcvr i = s.rcvr i) ∧ s2.got_new_frame = true ∧ s2.ppmCounter = 0 := by
  obtain ⟨s1, hrun, hr1, _, hp1⟩ := run_nonsync c hc ws s hns
  have h9 : s1.ppmCounter = 9 := hp1 (Or.inr herr)
  obtain ⟨s2, hstep, _, hg2, _, hc2, hr2, _⟩ := isrAfter_fields c y s1 hy32
  refine ⟨s2, ?_, ?_, ?_, ?_⟩
  · rw [runIntervals_append, hrun]
    simp [runIntervals, hstep]
  · intro i
    rw [hr2, if_neg (fun h => by have := h.2.2; omega), hr1]
  · rw [hg2, if_pos hy]
  · rw [hc2, if_pos hy]

/-- C2 at thresholds 800 / 2200 / 2700: the frame `[1500, 500, 1600]` holds the error
pulse 500; after the sync 3000 the committed array still holds its former zeros. -/
theorem isr_malformed_frame_dropped_witness :
    ∃ s2, runIntervals ⟨800, 2200, 2700⟩ ([1500, 500, 1600] ++ [3000]) zeroInit = some s2 ∧
      (∀ i, s2.rcvr i = zeroInit.rcvr i) ∧ s2.got_new_frame = true ∧ s2.ppmCounter = 0 :=
  isr_malformed_frame_dropped ⟨800, 2200, 2700⟩ (by decide) zeroInit [1500, 500, 1600] 3000
    (by decide) ⟨500, by decide, by decide⟩ (by decide) (by decide)

/-- C4 (threshold boundaries are inclusive): with the cursor of `s` below 8, an
interval exactly `MINPULSE`, and likewise one exactly `MAXPULSE`, is stored at
`ppmTmp[cursor]`, moves the cursor on by one (so it is not poisoned) and leaves
`ppmError` alone; and in any state `t` an interval exactly `SYNCPULSE` resets the cursor
to 0, sets `got_new_frame`, leaves `ppmError` alone and commits the working array when
the cursor is not poisoned. -/
theorem isr_threshold_boundaries (c : Consts) (hc : c.WF) (s t : State)
    (hcur : s.ppmCounter < 8) :
    (∃ s1, isrAfter c c.MINPULSE s = some s1 ∧ s1.ppmTmp ⟨s.ppmCounter, hcur⟩ = c.MINPULSE ∧
      s1.ppmCounter = s.ppmCounter + 1 ∧ s1.ppmCounter ≠ 9 ∧ s1.ppmError = s.ppmError ∧
      s1.rcvr = s.rcvr ∧ s1.got_new_frame = s.got_new_frame) ∧
    (∃ s1, isrAfter c c.MAXPULSE s = some s1 ∧ s1.ppmTmp ⟨s.ppmCounter, hcur⟩ = c.MAXPULSE ∧
      s1.ppmCounter = s.ppmCounter + 1 ∧ s1.ppmCounter ≠ 9 ∧ s1.ppmError = s.ppmError ∧
      s1.rcvr = s.rcvr ∧ s1.got_new_frame = s.got_new_frame) ∧
    (∃ t1, isrAfter c c.SYNCPULSE t = some t1 ∧ t1.ppmCounter = 0 ∧
      t1.got_new_frame = true ∧ t1.ppmError = t.ppmError ∧ t1.ppmTmp = t.ppmTmp ∧
      t1.rcvr = if t.ppmCounter ≤ 8 then t.ppmTmp else t.rcvr) := by
  obtain ⟨c1, c2, c3⟩ := hc
  have chan : ∀ w, c.MINPULSE ≤ w → w ≤ c.MAXPULSE →
      ∃ s1, isrAfter c w s = some s1 ∧ s1.ppmTmp ⟨s.ppmCounter, hcur⟩ = w ∧
        s1.ppmCounter = s.ppmCounter + 1 ∧ s1.ppmCounter ≠ 9 ∧ s1.ppmError = s.ppmError ∧
        s1.rcvr = s.rcvr ∧ s1.got_new_frame = s.got_new_frame := by
    intro w h1 h2
    have hne : ¬ isErrorPulse c w := by unfold isErrorPulse; omega
    have hns : ¬ (c.SYNCPULSE ≤ w) := by omega
    obtain ⟨s1, hstep, _, hg, he, hcn, hr, ht, _⟩ := isrAfter_fields c w s (by omega)
    rw [if_neg hns, if_neg hne, if_pos hcur] at hcn
    refine ⟨s1, hstep, ?_, hcn, by omega, ?_, ?_, ?_⟩
    · rw [ht, if_pos ⟨by omega, hne, rfl⟩]; omega
    · rw [he, if_neg hne]
    · rw [hr, if_neg (fun h => hns h.1)]
    · rw [hg, if_neg hns]
  refine ⟨chan c.MINPULSE (le_refl _) c1, chan c.MAXPULSE c1 (le_refl _), ?_⟩
  have hne : ¬ isErrorPulse c c.SYNCPULSE := by unfold isErrorPulse; omega
  obtain ⟨t1, hstep, _, hg, he, hcn, hr, ht, _⟩ := isrAfter_fields c c.SYNCPULSE t (by omega)
  refine ⟨t1, hstep, ?_, ?_, ?_, ?_, ?_⟩
  · rw [hcn, if_pos (le_refl _)]
  · rw [hg, if_pos (le_refl _)]
  · rw [he, if_neg hne]
  · funext i
    rw [ht i, if_neg (fun h => by have := h.1; omega)]
  · rw [hr]
    by_cases h8 : t.ppmCounter ≤ 8
    · rw [if_pos ⟨le_refl _, hne, h8⟩, if_pos h8]
    · rw [if_neg (fun h => h8 h.2.2), if_neg h8]

/-- C4 at thresholds 800 / 2200 / 2700, for the zero-initialised state (cursor 0) and
for a state whose cursor is poisoned. -/
theorem isr_threshold_boundaries_witness :
    (∃ s1, isrAfter ⟨800, 2200, 2700⟩ 800 zeroInit = some s1 ∧ s1.ppmTmp 0 = 800 ∧
      s1.ppmCounter = 1 ∧ s1.ppmCounter ≠ 9 ∧ s1.ppmError = 0 ∧
      s1.rcvr = zeroInit.rcvr ∧ s1.got_new_frame = false) ∧
    (∃ s1, isrAfter ⟨800, 2200, 2700⟩ 2200 zeroInit = some s1 ∧ s1.ppmTmp 0 = 2200 ∧
      s1.ppmCounter = 1 ∧ s1.ppmCounter ≠ 9 ∧ s1.ppmError = 0 ∧
      s1.rcvr = zeroInit.rcvr ∧ s1.got_new_frame = false) ∧
    (∃ t1, isrAfter ⟨800, 2200, 2700⟩ 2700 { zeroInit with ppmCounter := 9 } = some t1 ∧
      t1.ppmCounter = 0 ∧ t1.got_new_frame = true ∧ t1.ppmError = 0 ∧
      t1.ppmTmp = zeroInit.ppmTmp ∧ t1.rcvr = zeroInit.rcvr) :=
  isr_threshold_boundaries ⟨800, 2200, 2700⟩ (by decide) zeroInit
    { zeroInit with ppmCounter := 9 } (by decide)

/-- C5 (extra channel pulses are harmless): from any state whose cursor is 0, more than
eight intervals within `[MINPULSE, MAXPULSE]` followed by one interval of at least
`SYNCPULSE` are all handled without an out-of-bounds array access (the run returns a
state), and the committed array then holds the first eight widths in order; the
committed array, the working array, the cursor, the flag and the error counter are the
same as when only the first eight pulses are sent. -/
theorem isr_extra_pulses_harmless (c : Consts) (hc : c.WF) (s : State) (ws : List Nat)
    (y : Nat) (h0 : s.ppmCounter = 0) (hlen : 8 < ws.length)
    (hv : ∀ w ∈ ws, c.MINPULSE ≤ w ∧ w ≤ c.MAXPULSE)
    (hy : c.SYNCPULSE ≤ y) (hy32 : y < 4294967296) :
    ∃ s2 s3, runIntervals c (ws ++ [y]) s = some s2 ∧
      runIntervals c (ws.take 8 ++ [y]) s = some s3 ∧
      (∀ i : Fin 8, s2.rcvr i = ws.getD i.val 0) ∧
      s2.rcvr = s3.rcvr ∧ s2.ppmTmp = s3.ppmTmp ∧ s2.ppmCounter = s3.ppmCounter ∧
      s2.got_new_frame = s3.got_new_frame ∧ s2.ppmError = s3.ppmError := by
  obtain ⟨s2, hrun2, hr2, ht2, hc2, hg2, he2⟩ := run_frame_commit c hc ws y s hv h0 hy hy32
  obtain ⟨s3, hrun3, hr3, ht3, hc3, hg3, he3⟩ := run_frame_commit c hc (ws.take 8) y s
    (fun w hw => hv w (List.mem_of_mem_take hw)) h0 hy hy32
  have hrr : s2.rcvr = s3.rcvr := by
    funext i
    have hi := i.isLt
    have hl : (ws.take 8).length = 8 := by rw [List.length_take]; omega
    rw [hr2 i, hr3 i, hl, if_pos (by omega), if_pos hi]
    simp only [List.getD_eq_getElem?_getD]
    rw [List.getElem?_take_of_lt hi]
  refine ⟨s2, s3, hrun2, hrun3, ?_, hrr, ?_, ?_, ?_, ?_⟩
  · intro i
    have hi := i.isLt
    rw [hr2 i, if_pos (by omega)]
  · rw [ht2, ht3, hrr]
  · rw [hc2, hc3]
  · rw [hg2, hg3]
  · rw [he2, he3]

/-- C5 at thresholds 800 / 2200 / 2700: ten channel pulses, then a sync. -/
theorem isr_extra_pulses_harmless_witness :
    ∃ s2 s3, runIntervals ⟨800, 2200, 2700⟩
        ([1000, 1100, 1200, 1300, 1400, 1500, 1600, 1700, 1800, 1900] ++ [3000]) zeroInit
          = some s2 ∧
      runIntervals ⟨800, 2200, 2700⟩
        (([1000, 1100, 1200, 1300, 1400, 1500, 1600, 1700, 1800, 1900] : List Nat).take 8
          ++ [3000]) zeroInit = some s3 ∧
      (∀ i : Fin 8, s2.rcvr i =
        ([1000, 1100, 1200, 1300, 1400, 1500, 1600, 1700, 1800, 1900] : List Nat).getD i.val 0) ∧
      s2.rcvr = s3.rcvr ∧ s2.ppmTmp = s3.ppmTmp ∧ s2.ppmCounter = s3.ppmCounter ∧
      s2.got_new_frame = s3.got_new_frame ∧ s2.ppmError = s3.ppmError :=
  isr_extra_pulses_harmless ⟨800, 2200, 2700⟩ (by decide) zeroInit
    [1000, 1100, 1200, 1300, 1400, 1500, 1600, 1700, 1800, 1900] 3000 rfl (by decide)
    (by decide) (by decide) (by decide)

theorem sub32_after_mod (s w : Nat) :
    sub32 ((s + w) % 4294967296) s = w % 4294967296 := by
  unfold sub32
  omega

/-- Any edge is handled; the flag afterwards is set if the width is a sync width and
is otherwise as before. -/
theorem isrAfter_flag (c : Consts) (w : Nat) (s : State) :
    ∃ s1, isrAfter c w s = some s1 ∧
      s1.got_new_frame = (s.got_new_frame || decide (c.SYNCPULSE ≤ w % 4294967296)) := by
  obtain ⟨s1, hstep, _, hg, _⟩ := isr_fields c ((s.startPulse + w) % 4294967296) s
  rw [sub32_after_mod] at hg
  refine ⟨s1, hstep, ?_⟩
  rw [hg]
  by_cases h : c.SYNCPULSE ≤ w % 4294967296
  · simp [h]
  · simp [h]

theorem gotNewFrame_eq (s : State) :
    gotNewFrame s = (s.got_new_frame, { s with got_new_frame := false }) := by
  unfold gotNewFrame
  cases h : s.got_new_frame
  · simp only [Bool.false_eq_true, if_false]
    congr
    cases s
    simp_all
  · simp

/-- Polls answer as the read-and-clear contract says, on every trace. -/
theorem runEvents_pollAnswers (c : Consts) :
    ∀ (es : List Event) (s : State),
      ∃ s2, runEvents c es s = some (pollAnswers c es s.got_new_frame, s2) := by
  intro es
  induction es with
  | nil => intro s; exact ⟨s, rfl⟩
  | cons e es ih =>
    intro s
    cases e with
    | edge w =>
      obtain ⟨s1, hstep, hg⟩ := isrAfter_flag c w s
      obtain ⟨s2, hrun⟩ := ih s1
      refine ⟨s2, ?_⟩
      simp only [runEvents, pollAnswers, hstep, Option.bind]
      rw [hrun, hg]
    | poll =>
      obtain ⟨s2, hrun⟩ := ih (gotNewFrame s).2
      refine ⟨s2, ?_⟩
      simp only [runEvents, pollAnswers, hrun, Option.map]
      rw [gotNewFrame_eq]

theorem pollAnswers_edges (c : Consts) (rest : List Event) :
    ∀ (ws : List Nat) (p : Bool),
      pollAnswers c (ws.map Event.edge ++ rest) p =
        pollAnswers c rest (p || ws.any (fun w => decide (c.SYNCPULSE ≤ w % 4294967296))) := by
  intro ws
  induction ws with
  | nil => intro p; simp
  | cons w ws ih =>
    intro p
    rw [List.map_cons, List.cons_append]
    simp only [pollAnswers]
    rw [ih, List.any_cons, Bool.or_assoc]

/-- C6 (`gotNewFrame` is read-and-clear): a call returns the flag as it was, leaves the
flag false and changes nothing else; a second call right after it returns false; on
every trace of edges and polls each poll answers whether a sync pulse was handled since
the previous poll; so after edges `ws`, a poll, edges `ns` and two more polls, the
answers are: flag pending or a sync among `ws`; a sync among `ns`; false. -/
theorem gotNewFrame_read_and_clear (c : Consts) (s : State) :
    gotNewFrame s = (s.got_new_frame, { s with got_new_frame := false }) ∧
    (gotNewFrame (gotNewFrame s).2).1 = false ∧
    (∀ es : List Event,
      ∃ s2, runEvents c es s = some (pollAnswers c es s.got_new_frame, s2)) ∧
    (∀ ws ns : List Nat,
      ∃ s2, runEvents c (ws.map Event.edge ++ (Event.poll ::
          (ns.map Event.edge ++ [Event.poll, Event.poll]))) s =
        some ([s.got_new_frame || ws.any (fun w => decide (c.SYNCPULSE ≤ w % 4294967296)),
               ns.any (fun w => decide (c.SYNCPULSE ≤ w % 4294967296)),
               false], s2)) := by
  refine ⟨gotNewFrame_eq s, ?_, fun es => runEvents_pollAnswers c es s, ?_⟩
  · rw [gotNewFrame_eq, gotNewFrame_eq]
  · intro ws ns
    obtain ⟨s2, h⟩ := runEvents_pollAnswers c (ws.map Event.edge ++ (Event.poll ::
          (ns.map Event.edge ++ [Event.poll, Event.poll]))) s
    refine ⟨s2, ?_⟩
    rw [h, pollAnswers_edges]
    simp only [pollAnswers, pollAnswers_edges, Bool.false_or]

/-- C3 fails on the code: after `begin()` with eight channels and thresholds
800 / 2200 / 2700, the frame `[1000, 1234, 500]` is discarded (500 is an error pulse),
yet the following one-pulse frame `[1100]` commits the whole working array, so
`rcvr[1]` holds 1234: neither the seed 1500 nor a width of a validated frame (the
only such width is 1100). -/
theorem isr_commits_discarded_width :
    ∃ s0 s1, begin 8 zeroInit = some s0 ∧
      runIntervals ⟨800, 2200, 2700⟩ [1000, 1234, 500, 3000, 1100, 3000] s0 = some s1 ∧
      s1.rcvr 1 = 1234 ∧
      validatedWidths ⟨800, 2200, 2700⟩ [1000, 1234, 500, 3000, 1100, 3000] [] false
        = [1100] ∧
      ¬ (s1.rcvr 1 = 1500 ∨ s1.rcvr 1 ∈
        validatedWidths ⟨800, 2200, 2700⟩ [1000, 1234, 500, 3000, 1100, 3000] [] false) := by
  refine ⟨_, _, rfl, rfl, ?_, ?_, ?_⟩
  · decide
  · decide
  · decide

theorem accumulate_eq (chan : Nat) (hc : chan < 8) (s : State) :
    accumulate chan s = some { s with
      rcDataMean := Function.update s.rcDataMean ⟨chan, hc⟩
        (((((s.rcDataMean ⟨chan, hc⟩ + s.rcData4Values ⟨chan, hc⟩ 0) % 65536
          + s.rcData4Values ⟨chan, hc⟩ 1) % 65536
          + s.rcData4Values ⟨chan, hc⟩ 2) % 65536
          + s.rcData4Values ⟨chan, hc⟩ 3) % 65536) } := by
  unfold accumulate
  simp only [forRange_succ, forRange_zero]
  simp [readAt, readAt2, writeAt, hc]

/-- The two sequential `if` statements leave `deadband mean (rcData chan)` in
`rcData[chan]` and touch no other element. -/
theorem deadband_update (mean chan : Nat) (rcData : Nat → Nat) :
    (if (mean : Int) >
          (((if (mean : Int) < ((rcData chan % 65536 : Nat) : Int) - 3 then
              Function.update rcData chan ((mean + 2) % 65536)
            else rcData) chan % 65536 : Nat) : Int) + 3 then
        Function.update
          (if (mean : Int) < ((rcData chan % 65536 : Nat) : Int) - 3 then
              Function.update rcData chan ((mean + 2) % 65536)
            else rcData) chan (((mean : Int) - 2) % 65536).toNat
      else
        (if (mean : Int) < ((rcData chan % 65536 : Nat) : Int) - 3 then
              Function.update rcData chan ((mean + 2) % 65536)
            else rcData)) =
      Function.update rcData chan (deadband mean (rcData chan)) := by
  unfold deadband
  by_cases h1 : (mean : Int) < ((rcData chan % 65536 : Nat) : Int) - 3
  · simp only [h1, if_true, Function.update_same]
    split_ifs <;> simp
  · simp only [h1, if_false]
    split_ifs <;> simp

/-- One pass of the channel loop, for a channel and a history index within bounds. -/
theorem computeRC_chan_eq (rawRC : Fin 8 → Nat) (chan : Nat) (hc : chan < 8) (s : State)
    (hi : s.rc4ValuesIndex < 4) (rcData : Nat → Nat) :
    computeRC_chan rawRC chan (s, rcData) = some
      ({ s with
          rcData4Values := Function.update s.rcData4Values ⟨chan, hc⟩
            (Function.update (s.rcData4Values ⟨chan, hc⟩) ⟨s.rc4ValuesIndex, hi⟩
              (rawRC ⟨chan, hc⟩ % 65536)),
          rcDataMean := Function.update s.rcDataMean ⟨chan, hc⟩
            (meanOf (Function.update (s.rcData4Values ⟨chan, hc⟩) ⟨s.rc4ValuesIndex, hi⟩
              (rawRC ⟨chan, hc⟩ % 65536))) },
       Function.update rcData chan
        (deadband
          (meanOf (Function.update (s.rcData4Values ⟨chan, hc⟩) ⟨s.rc4ValuesIndex, hi⟩
            (rawRC ⟨chan, hc⟩ % 65536)))
          (rcData chan))) := by
  unfold computeRC_chan
  simp only [readAt, writeAt, writeAt2, hc, hi, dite_true, Option.map_some', Option.bind_eq_bind,
    Option.some_bind, accumulate_eq, Function.update_same, Function.update_idem, Option.pure_def,
    Option.bind_some]
  rw [deadband_update]
  simp [meanOf]

/-- The first loop of `computeRC` copies the committed values of the channels below
`n` into the local array, in bounds as long as `n` is at most 8. -/
theorem rawRC_loop (rcvr : Fin 8 → Nat) :
    ∀ n, n ≤ 8 →
      ∃ raw : Fin 8 → Nat,
        forRange n (fun k raw => do
          let v ← readAt rcvr k
          writeAt raw k v) (fun _ => 0) = some raw ∧
        ∀ k : Fin 8, k.val < n → raw k = rcvr k := by
  intro n
  induction n with
  | zero =>
    intro _
    exact ⟨fun _ => 0, forRange_zero _ _, fun k hk => absurd hk (Nat.not_lt_zero _)⟩
  | succ n ih =>
    intro hn
    have hn8 : n < 8 := by omega
    obtain ⟨raw, hrun, hraw⟩ := ih (by omega)
    refine ⟨Function.update raw ⟨n, hn8⟩ (rcvr ⟨n, hn8⟩), ?_, ?_⟩
    · rw [forRange_succ, hrun]
      simp [readAt, writeAt, hn8]
    · intro k hk
      by_cases hkn : k = ⟨n, hn8⟩
      · rw [hkn, Function.update_same]
      · rw [Function.update_noteq hkn]
        apply hraw
        have : k.val ≠ n := fun h => hkn (Fin.ext h)
        omega

/-- The channel loop of `computeRC` over the channels below `n`: every channel below
`n` gets its raw value into the history slot at the shared index, its mean recomputed
and its estimate passed through the deadband; everything else stays. -/
theorem chan_loop (rawRC : Fin 8 → Nat) (s : State) (hi : s.rc4ValuesIndex < 4)
    (rcData : Nat → Nat) :
    ∀ n, n ≤ 8 →
      ∃ (s2 : State) (rc2 : Nat → Nat),
        forRange n (computeRC_chan rawRC) (s, rcData) = some (s2, rc2) ∧
        s2.rc4ValuesIndex = s.rc4ValuesIndex ∧
        (s2.ppmTmp = s.ppmTmp ∧ s2.startPulse = s.startPulse ∧ s2.ppmCounter = s.ppmCounter ∧
          s2.ppmError = s.ppmError ∧ s2.rcvr = s.rcvr ∧ s2.got_new_frame = s.got_new_frame) ∧
        (∀ (k : Fin 8) (a : Fin 4), s2.rcData4Values k a =
          if k.val < n ∧ a.val = s.rc4ValuesIndex then rawRC k % 65536
          else s.rcData4Values k a) ∧
        (∀ k : Fin 8, s2.rcDataMean k =
          if k.val < n then meanOf (s2.rcData4Values k) else s.rcDataMean k) ∧
        (∀ k : Fin 8, k.val < n → rc2 k.val = deadband (s2.rcDataMean k) (rcData k.val)) ∧
        (∀ k : Nat, n ≤ k → rc2 k = rcData k) := by
  intro n
  induction n with
  | zero =>
    intro _
    refine ⟨s, rcData, forRange_zero _ _, rfl, ⟨rfl, rfl, rfl, rfl, rfl, rfl⟩, ?_, ?_, ?_, ?_⟩
    · intro k a; simp
    · intro k; simp
    · intro k hk; exact absurd hk (Nat.not_lt_zero _)
    · intro k _; rfl
  | succ n ih =>
    intro hn
    have hn8 : n < 8 := by omega
    obtain ⟨s2, rc2, hrun, hidx, hfr, hH, hM, hrc, hrest⟩ := ih (by omega)
    have hi2 : s2.rc4ValuesIndex < 4 := by rw [hidx]; exact hi
    have hstep := computeRC_chan_eq rawRC n hn8 s2 hi2 rc2
    have hrow : ∀ a : Fin 4,
        Function.update (s2.rcData4Values ⟨n, hn8⟩) ⟨s2.rc4ValuesIndex, hi2⟩
          (rawRC ⟨n, hn8⟩ % 65536) a =
        if a.val = s.rc4ValuesIndex then rawRC ⟨n, hn8⟩ % 65536
        else s.rcData4Values ⟨n, hn8⟩ a := by
      intro a
      by_cases ha : a.val = s.rc4ValuesIndex
      · have : a = ⟨s2.rc4ValuesIndex, hi2⟩ := Fin.ext (by simp only [ha, hidx])
        rw [if_pos ha, this, Function.update_same]
      · have : a ≠ ⟨s2.rc4ValuesIndex, hi2⟩ := fun h => ha (by simp only [h, hidx])
        rw [if_neg ha, Function.update_noteq this, hH]
        simp
    refine ⟨_, _, (by rw [forRange_succ, hrun]; exact hstep), ?_, ?_, ?_, ?_, ?_, ?_⟩
    · exact hidx
    · exact hfr
    · intro k a
      by_cases hkn : k = ⟨n, hn8⟩
      · subst hkn
        simp only [Function.update_same]
        rw [hrow a]
        simp
      · have hne : k.val ≠ n := fun h => hkn (Fin.ext h)
        simp only [Function.update_noteq hkn]
        rw [hH k a]
        by_cases hlt : k.val < n
        · have : k.val < n + 1 := by omega
          simp [hlt, this]
        · have : ¬ k.val < n + 1 := by omega
          simp [hlt, this]
    · intro k
      by_cases hkn : k = ⟨n, hn8⟩
      · subst hkn
        simp only [Function.update_same]
        simp
      · have hne : k.val ≠ n := fun h => hkn (Fin.ext h)
        simp only [Function.update_noteq hkn]
        rw [hM k]
        by_cases hlt : k.val < n
        · have : k.val < n + 1 := by omega
          simp [hlt, this]
        · have : ¬ k.val < n + 1 := by omega
          simp [hlt, this]
    · intro k hk
      by_cases hkn : k = ⟨n, hn8⟩
      · subst hkn
        simp only [Function.update_same]
        rw [hrest n (le_refl n)]
      · have hne : k.val ≠ n := fun h => hkn (Fin.ext h)
        simp only [Function.update_noteq hkn, Function.update_noteq hne]
        exact hrc k (by omega)
    · intro k hk
      have hne : k ≠ n := by omega
      simp only [Function.update_noteq hne]
      exact hrest k (by omega)

/-- Every field after one `computeRC` call with at most eight channels and the history
index within `0..3`; in particular the call returns, that is, every array access is
in bounds. -/
theorem computeRC_fields (nchan : Nat) (hn : nchan ≤ 8) (rcData : Nat → Nat) (s : State)
    (hi : s.rc4ValuesIndex < 4) :
    ∃ (s2 : State) (rc2 : Nat → Nat),
      computeRC nchan rcData s = some (s2, rc2) ∧
      s2.rc4ValuesIndex = (s.rc4ValuesIndex + 1) % 4 ∧
      (s2.ppmTmp = s.ppmTmp ∧ s2.startPulse = s.startPulse ∧ s2.ppmCounter = s.ppmCounter ∧
        s2.ppmError = s.ppmError ∧ s2.rcvr = s.rcvr ∧ s2.got_new_frame = s.got_new_frame) ∧
      (∀ (k : Fin 8) (a : Fin 4), s2.rcData4Values k a =
        if k.val < nchan ∧ a.val = (s.rc4ValuesIndex + 1) % 4 then s.rcvr k % 65536
        else s.rcData4Values k a) ∧
      (∀ k : Fin 8, s2.rcDataMean k =
        if k.val < nchan then meanOf (s2.rcData4Values k) else s.rcDataMean k) ∧
      (∀ k : Fin 8, k.val < nchan → rc2 k.val = deadband (s2.rcDataMean k) (rcData k.val)) ∧
      (∀ k : Nat, nchan ≤ k → rc2 k = rcData k) := by
  have hidx : (if (s.rc4ValuesIndex + 1) % 256 = 4 then
        ({ s with rc4ValuesIndex := 0 } : State)
      else { s with rc4ValuesIndex := (s.rc4ValuesIndex + 1) % 256 }) =
      { s with rc4ValuesIndex := (s.rc4ValuesIndex + 1) % 4 } := by
    by_cases h : (s.rc4ValuesIndex + 1) % 256 = 4
    · rw [if_pos h]
      have : (s.rc4ValuesIndex + 1) % 4 = 0 := by omega
      rw [this]
    · rw [if_neg h]
      have : (s.rc4ValuesIndex + 1) % 256 = (s.rc4ValuesIndex + 1) % 4 := by omega
      rw [this]
  obtain ⟨raw, hraw, hrawv⟩ := rawRC_loop s.rcvr nchan hn
  obtain ⟨s2, rc2, hrun, h1, h2, h3, h4, h5, h6⟩ :=
    chan_loop raw { s with rc4ValuesIndex := (s.rc4ValuesIndex + 1) % 4 }
      (show (s.rc4ValuesIndex + 1) % 4 < 4 by omega) rcData nchan hn
  refine ⟨s2, rc2, ?_, h1, h2, ?_, h4, h5, h6⟩
  · unfold computeRC
    simp only [hidx, Option.bind_eq_bind]
    show (forRange nchan (fun k raw => do
          let v ← readAt s.rcvr k
          writeAt raw k v) (fun _ => 0)).bind _ = _
    rw [hraw]
    exact hrun
  · intro k a
    rw [h3 k a]
    by_cases hk : k.val < nchan
    · simp only [hk, true_and]
      rw [hrawv k hk]
    · simp [hk]

theorem meanOf_lt (row : Fin 4 → Nat) : meanOf row < 65536 := by
  unfold meanOf
  omega

/-- On 16-bit operands the two `if` statements compute the three-way deadband rule. -/
theorem deadband_eq (m e : Nat) (hm : m < 65536) (he : e < 65536) :
    deadband m e =
      if (m : Int) < (e : Int) - 3 then m + 2
      else if (m : Int) > (e : Int) + 3 then m - 2 else e := by
  unfold deadband
  have he' : e % 65536 = e := by omega
  rw [he']
  by_cases h1 : (m : Int) < (e : Int) - 3
  · have h2 : (m + 2) % 65536 = m + 2 := by omega
    have h3 : ¬ ((m : Int) > (((m + 2) % 65536 % 65536 : Nat) : Int) + 3) := by omega
    simp only [h1, if_true]
    rw [if_neg h3, h2]
  · simp only [h1, if_false]
    rw [he']
    by_cases h4 : (m : Int) > (e : Int) + 3
    · simp only [h4, if_true]
      omega
    · simp only [h4, if_false]

/-- C8 (deadband rule of `computeRC`): for a channel `k` below `nchan`, with `m` the
channel's new rolling mean and `e` the caller's 16-bit estimate before the call, the
estimate after the call is `m + 2` if `m < e - 3`, `m - 2` if `m > e + 3`, and `e`
otherwise, the comparisons being exact integer comparisons; the two `if` statements
never both fire (the second is evaluated on the estimate the first may have written),
and neither `m + 2` nor `m - 2` wraps in 16 bits. -/
theorem computeRC_deadband_rule (nchan : Nat) (hn : nchan ≤ 8) (rcData : Nat → Nat)
    (s : State) (hi : s.rc4ValuesIndex < 4) (k : Fin 8) (hk : k.val < nchan)
    (he : rcData k.val < 65536) :
    ∃ (s2 : State) (rc2 : Nat → Nat),
      computeRC nchan rcData s = some (s2, rc2) ∧
      rc2 k.val =
        (if (s2.rcDataMean k : Int) < (rcData k.val : Int) - 3 then s2.rcDataMean k + 2
         else if (s2.rcDataMean k : Int) > (rcData k.val : Int) + 3 then s2.rcDataMean k - 2
         else rcData k.val) ∧
      ¬ ((s2.rcDataMean k : Int) < (rcData k.val : Int) - 3 ∧
         (s2.rcDataMean k : Int) > (((s2.rcDataMean k + 2) % 65536 : Nat) : Int) + 3) ∧
      ((s2.rcDataMean k : Int) < (rcData k.val : Int) - 3 → s2.rcDataMean k + 2 < 65536) ∧
      ((s2.rcDataMean k : Int) > (rcData k.val : Int) + 3 → 2 ≤ s2.rcDataMean k) := by
  obtain ⟨s2, rc2, hrun, _, _, _, hM, hrc, _⟩ := computeRC_fields nchan hn rcData s hi
  have hm : s2.rcDataMean k < 65536 := by
    rw [hM k, if_pos hk]
    exact meanOf_lt _
  refine ⟨s2, rc2, hrun, ?_, ?_, ?_, ?_⟩
  · rw [hrc k hk, deadband_eq _ _ hm he]
  · omega
  · omega
  · omega

/-- C8 on the zero-initialised filter with eight channels, channel 0 committed at 1000
and the caller's estimate at 1500. -/
theorem computeRC_deadband_rule_witness :
    ∃ (s2 : State) (rc2 : Nat → Nat),
      computeRC 8 (fun _ => 1500) { zeroInit with rcvr := fun _ => 1000 } = some (s2, rc2) ∧
      rc2 0 =
        (if (s2.rcDataMean 0 : Int) < ((1500 : Nat) : Int) - 3 then s2.rcDataMean 0 + 2
         else if (s2.rcDataMean 0 : Int) > ((1500 : Nat) : Int) + 3 then s2.rcDataMean 0 - 2
         else 1500) ∧
      ¬ ((s2.rcDataMean 0 : Int) < ((1500 : Nat) : Int) - 3 ∧
         (s2.rcDataMean 0 : Int) > (((s2.rcDataMean 0 + 2) % 65536 : Nat) : Int) + 3) ∧
      ((s2.rcDataMean 0 : Int) < ((1500 : Nat) : Int) - 3 → s2.rcDataMean 0 + 2 < 65536) ∧
      ((s2.rcDataMean 0 : Int) > ((1500 : Nat) : Int) + 3 → 2 ≤ s2.rcDataMean 0) :=
  computeRC_deadband_rule 8 (by decide) (fun _ => 1500) { zeroInit with rcvr := fun _ => 1000 }
    (by decide) 0 (by decide) (by decide)

/-- C9 (rolling mean is the rounded mean): for a channel `k` below `nchan`, when the
four history slots after the push sum to less than `65536 - 2`, the value stored in
`rcDataMean[k]` is `(h0 + h1 + h2 + h3 + 2) / 4` rounded down, which is the integer
nearest to `(h0 + h1 + h2 + h3) / 4` with halves rounded up, and the 16-bit
accumulation loop run on these four slots yields their exact sum. -/
theorem computeRC_rounded_mean (nchan : Nat) (hn : nchan ≤ 8) (rcData : Nat → Nat)
    (s : State) (hi : s.rc4ValuesIndex < 4) (k : Fin 8) (hk : k.val < nchan)
    (hsum : pushed s k 0 + pushed s k 1 + pushed s k 2 + pushed s k 3 + 2 < 65536) :
    ∃ (s2 : State) (rc2 : Nat → Nat),
      computeRC nchan rcData s = some (s2, rc2) ∧
      s2.rcData4Values k = pushed s k ∧
      s2.rcDataMean k =
        (s2.rcData4Values k 0 + s2.rcData4Values k 1 + s2.rcData4Values k 2
          + s2.rcData4Values k 3 + 2) / 4 ∧
      ((s2.rcDataMean k : ℤ) =
        ⌊((s2.rcData4Values k 0 + s2.rcData4Values k 1 + s2.rcData4Values k 2
          + s2.rcData4Values k 3 : ℕ) : ℚ) / 4 + 1 / 2⌋) ∧
      (∃ st, accumulate k.val { s2 with rcDataMean := Function.update s2.rcDataMean k 0 }
          = some st ∧
        st.rcDataMean k = s2.rcData4Values k 0 + s2.rcData4Values k 1
          + s2.rcData4Values k 2 + s2.rcData4Values k 3) := by
  obtain ⟨s2, rc2, hrun, _, _, hH, hM, _, _⟩ := computeRC_fields nchan hn rcData s hi
  have hrow : s2.rcData4Values k = pushed s k := by
    funext a
    rw [hH k a]
    unfold pushed
    simp [hk]
  have hmean : s2.rcDataMean k =
      (s2.rcData4Values k 0 + s2.rcData4Values k 1 + s2.rcData4Values k 2
        + s2.rcData4Values k 3 + 2) / 4 := by
    rw [hM k, if_pos hk, hrow]
    unfold meanOf
    omega
  refine ⟨s2, rc2, hrun, hrow, hmean, ?_, ?_⟩
  · symm
    rw [Int.floor_eq_iff, hmean]
    generalize s2.rcData4Values k 0 + s2.rcData4Values k 1 + s2.rcData4Values k 2
        + s2.rcData4Values k 3 = t
    have h1 : 4 * ((t + 2) / 4) ≤ t + 2 := by omega
    have h2 : t + 2 < 4 * ((t + 2) / 4) + 4 := by omega
    generalize (t + 2) / 4 = m at h1 h2
    have h1q : (4 : ℚ) * (m : ℚ) ≤ (t : ℚ) + 2 := by exact_mod_cast h1
    have h2q : (t : ℚ) + 2 < 4 * (m : ℚ) + 4 := by exact_mod_cast h2
    have hc : (((m : ℕ) : ℤ) : ℚ) = (m : ℚ) := by norm_cast
    rw [hc]
    constructor
    · linarith
    · linarith
  · refine ⟨_, accumulate_eq k.val k.isLt _, ?_⟩
    simp only [Fin.eta, Function.update_same]
    rw [hrow]
    omega

/-- C9 on the zero-initialised filter with eight channels and channel 0 committed at
1000: the slots after the push are 0, 1000, 0, 0. -/
theorem computeRC_rounded_mean_witness :
    ∃ (s2 : State) (rc2 : Nat → Nat),
      computeRC 8 (fun _ => 1500) { zeroInit with rcvr := fun _ => 1000 } = some (s2, rc2) ∧
      s2.rcData4Values 0 = pushed { zeroInit with rcvr := fun _ => 1000 } 0 ∧
      s2.rcDataMean 0 =
        (s2.rcData4Values 0 0 + s2.rcData4Values 0 1 + s2.rcData4Values 0 2
          + s2.rcData4Values 0 3 + 2) / 4 ∧
      ((s2.rcDataMean 0 : ℤ) =
        ⌊((s2.rcData4Values 0 0 + s2.rcData4Values 0 1 + s2.rcData4Values 0 2
          + s2.rcData4Values 0 3 : ℕ) : ℚ) / 4 + 1 / 2⌋) ∧
      (∃ st, accumulate 0 { s2 with rcDataMean := Function.update s2.rcDataMean 0 0 }
          = some st ∧
        st.rcDataMean 0 = s2.rcData4Values 0 0 + s2.rcData4Values 0 1
          + s2.rcData4Values 0 2 + s2.rcData4Values 0 3) :=
  computeRC_rounded_mean 8 (by decide) (fun _ => 1500) { zeroInit with rcvr := fun _ => 1000 }
    (by decide) 0 (by decide) (by decide)

theorem computeRC_iter_add (nchan : Nat) :
    ∀ (m n : Nat) (rcData : Nat → Nat) (s : State),
      computeRC_iter nchan (m + n) rcData s =
        (computeRC_iter nchan m rcData s).bind (fun r => computeRC_iter nchan n r.2 r.1) := by
  intro m
  induction m with
  | zero => intro n rcData s; simp [computeRC_iter]
  | succ m ih =>
    intro n rcData s
    rw [Nat.add_right_comm]
    simp only [computeRC_iter]
    cases h : computeRC nchan rcData s with
    | none => simp
    | some r => simp [ih]

/-- Once all four history slots of every channel hold the committed value 1000 and the
estimates stand at 998, further calls change neither the means nor the estimates. -/
theorem computeRC_iter_steady :
    ∀ (n : Nat) (rcData : Nat → Nat) (s : State), s.rc4ValuesIndex < 4 →
      (∀ k : Fin 8, (∀ a, s.rcData4Values k a = 1000) ∧ s.rcvr k = 1000 ∧
        rcData k.val = 998 ∧ s.rcDataMean k = 1000) →
      ∃ r, computeRC_iter 8 n rcData s = some r ∧ r.1.rc4ValuesIndex < 4 ∧
        (∀ k : Fin 8, (∀ a, r.1.rcData4Values k a = 1000) ∧ r.1.rcvr k = 1000 ∧
          r.2 k.val = 998 ∧ r.1.rcDataMean k = 1000) := by
  intro n
  induction n with
  | zero => intro rcData s hi h; exact ⟨(s, rcData), rfl, hi, h⟩
  | succ n ih =>
    intro rcData s hi h
    obtain ⟨s2, rc2, hrun, hidx, hfr, hH, hM, hrc, _⟩ :=
      computeRC_fields 8 (le_refl 8) rcData s hi
    have hrow : ∀ (k : Fin 8) (a : Fin 4), s2.rcData4Values k a = 1000 := by
      intro k a
      rw [hH k a, (h k).2.1, (h k).1 a]
      simp
    have hmean : ∀ k : Fin 8, s2.rcDataMean k = 1000 := by
      intro k
      rw [hM k, if_pos k.isLt]
      simp [meanOf, hrow]
    obtain ⟨r, hr, hr2⟩ := ih rc2 s2 (by rw [hidx]; omega) (fun k =>
      ⟨hrow k, by rw [hfr.2.2.2.2.1]; exact (h k).2.1,
        by rw [hrc k k.isLt, hmean k, (h k).2.2.1]; decide, hmean k⟩)
    refine ⟨r, ?_, hr2⟩
    simp only [computeRC_iter, hrun, Option.bind]
    exact hr

set_option maxRecDepth 100000

/-- C7 as stated fails: from the zero-initialised filter, with every committed value
at 1000 and every estimate at 1500, the first `computeRC` call leaves the mean of
channel 0 at 250 and sets the estimate to 252, not to 1500 - 2. -/
theorem computeRC_not_nudged_by_two :
    ∃ r, computeRC_iter 8 1 (fun _ => 1500) { zeroInit with rcvr := fun _ => 1000 } = some r ∧
      r.1.rcDataMean 0 = 250 ∧ r.2 0 = 252 ∧
      ¬ nudgedByTwo 1500 (r.1.rcDataMean 0) (r.2 0) := by
  refine ⟨_, rfl, ?_, ?_, ?_⟩ <;> decide

/-- C7 amended: from the zero-initialised filter, with every committed value held at
1000 and every estimate starting at 1500, four consecutive `computeRC` calls bring the
rolling mean of every channel to 250, 500, 750, 1000 and set the estimate to the mean
plus or minus 2, namely 252, 498, 748, 998; every later call finds the mean at 1000
and leaves the estimate at 998. -/
theorem computeRC_convergence_scenario :
    ∀ k : Fin 8,
      (∃ r, computeRC_iter 8 1 (fun _ => 1500) { zeroInit with rcvr := fun _ => 1000 }
          = some r ∧ r.1.rcDataMean k = 250 ∧ r.2 k.val = 252) ∧
      (∃ r, computeRC_iter 8 2 (fun _ => 1500) { zeroInit with rcvr := fun _ => 1000 }
          = some r ∧ r.1.rcDataMean k = 500 ∧ r.2 k.val = 498) ∧
      (∃ r, computeRC_iter 8 3 (fun _ => 1500) { zeroInit with rcvr := fun _ => 1000 }
          = some r ∧ r.1.rcDataMean k = 750 ∧ r.2 k.val = 748) ∧
      (∃ r, computeRC_iter 8 4 (fun _ => 1500) { zeroInit with rcvr := fun _ => 1000 }
          = some r ∧ r.1.rcDataMean k = 1000 ∧ r.2 k.val = 998) ∧
      (∀ n, ∃ r, computeRC_iter 8 (4 + n) (fun _ => 1500)
          { zeroInit with rcvr := fun _ => 1000 } = some r ∧
          r.1.rcDataMean k = 1000 ∧ r.2 k.val = 998) := by
  have h4 : ∃ r, computeRC_iter 8 4 (fun _ => 1500) { zeroInit with rcvr := fun _ => 1000 }
      = some r ∧ r.1.rc4ValuesIndex < 4 ∧
      (∀ k : Fin 8, (∀ a, r.1.rcData4Values k a = 1000) ∧ r.1.rcvr k = 1000 ∧
        r.2 k.val = 998 ∧ r.1.rcDataMean k = 1000) := by
    refine ⟨_, rfl, ?_, ?_⟩ <;> decide
  intro k
  refine ⟨?_, ?_, ?_, ?_, ?_⟩
  · refine ⟨_, rfl, ?_, ?_⟩ <;> revert k <;> decide
  · refine ⟨_, rfl, ?_, ?_⟩ <;> revert k <;> decide
  · refine ⟨_, rfl, ?_, ?_⟩ <;> revert k <;> decide
  · refine ⟨_, rfl, ?_, ?_⟩ <;> revert k <;> decide
  · intro n
    obtain ⟨r4, hr4, hi4, hs4⟩ := h4
    obtain ⟨r, hr, _, hs⟩ := computeRC_iter_steady n r4.2 r4.1 hi4 hs4
    refine ⟨r, ?_, (hs k).2.2.2, (hs k).2.2.1⟩
    rw [computeRC_iter_add, hr4]
    exact hr

/-- A quantity that every pass of a loop body preserves is preserved by the loop. -/
theorem forRange_preserves {σ α : Type} (f : σ → α) (body : Nat → σ → Option σ)
    (hb : ∀ k a b, body k a = some b → f b = f a) :
    ∀ (n : Nat) (s t : σ), forRange n body s = some t → f t = f s := by
  intro n
  induction n with
  | zero =>
    intro s t h
    rw [forRange_zero] at h
    cases h
    rfl
  | succ n ih =>
    intro s t h
    rw [forRange_succ] at h
    obtain ⟨mid, hmid, hlast⟩ := Option.bind_eq_some.mp h
    rw [hb n mid t hlast, ih s mid hmid]

/-- The method `begin` does not touch the history index of the filter. -/
theorem begin_index (nchan : Nat) (s t : State) (h : begin nchan s = some t) :
    t.rc4ValuesIndex = s.rc4ValuesIndex := by
  unfold begin at h
  obtain ⟨mid, hmid, hlast⟩ := Option.bind_eq_some.mp h
  have hpres := forRange_preserves (fun st : State => st.rc4ValuesIndex) _
    (by
      intro k a b hab
      obtain ⟨r, _, hab2⟩ := Option.bind_eq_some.mp hab
      obtain ⟨t2, _, hab3⟩ := Option.bind_eq_some.mp hab2
      cases hab3
      rfl) nchan s mid hmid
  cases hlast
  exact hpres

/-- C10 (shared history index): with at most eight channels and the history index in
`0..3` (as it is initially, and as `isr`, `gotNewFrame` and `begin` leave it), four
`computeRC` calls, between which the rest of the program (`env1`, `env2`, `env3`) may
change anything but the history and its index, all return; each call advances the
index once, to the old index plus one modulo 4, whatever `nchan` is, and keeps it in
`0..3`; a call writes the committed value of every channel below `nchan` into the slot
at the new index and leaves all other slots alone; after the four calls the history
of each channel below `nchan` holds exactly the four committed values read in them
(stored as 16-bit values). -/
theorem computeRC_shared_index (nchan : Nat) (hn : nchan ≤ 8) (s0 : State)
    (hi : s0.rc4ValuesIndex < 4) (env1 env2 env3 : State → State)
    (h1 : ∀ s, (env1 s).rcData4Values = s.rcData4Values ∧
      (env1 s).rc4ValuesIndex = s.rc4ValuesIndex)
    (h2 : ∀ s, (env2 s).rcData4Values = s.rcData4Values ∧
      (env2 s).rc4ValuesIndex = s.rc4ValuesIndex)
    (h3 : ∀ s, (env3 s).rcData4Values = s.rcData4Values ∧
      (env3 s).rc4ValuesIndex = s.rc4ValuesIndex)
    (d0 d1 d2 d3 : Nat → Nat) :
    ∃ (s1 : State) (rc1 : Nat → Nat) (s2 : State) (rc2 : Nat → Nat)
      (s3 : State) (rc3 : Nat → Nat) (s4 : State) (rc4 : Nat → Nat),
      computeRC nchan d0 s0 = some (s1, rc1) ∧
      computeRC nchan d1 (env1 s1) = some (s2, rc2) ∧
      computeRC nchan d2 (env2 s2) = some (s3, rc3) ∧
      computeRC nchan d3 (env3 s3) = some (s4, rc4) ∧
      (s1.rc4ValuesIndex = (s0.rc4ValuesIndex + 1) % 4 ∧
        s2.rc4ValuesIndex = (s1.rc4ValuesIndex + 1) % 4 ∧
        s3.rc4ValuesIndex = (s2.rc4ValuesIndex + 1) % 4 ∧
        s4.rc4ValuesIndex = (s3.rc4ValuesIndex + 1) % 4 ∧
        s4.rc4ValuesIndex = s0.rc4ValuesIndex) ∧
      (s1.rc4ValuesIndex < 4 ∧ s2.rc4ValuesIndex < 4 ∧ s3.rc4ValuesIndex < 4 ∧
        s4.rc4ValuesIndex < 4) ∧
      (∀ (k : Fin 8) (a : Fin 4), s1.rcData4Values k a =
        if k.val < nchan ∧ a.val = s1.rc4ValuesIndex then s0.rcvr k % 65536
        else s0.rcData4Values k a) ∧
      (∀ k : Fin 8, k.val < nchan → ∀ a : Fin 4, s4.rcData4Values k a =
        if a.val = s1.rc4ValuesIndex then s0.rcvr k % 65536
        else if a.val = s2.rc4ValuesIndex then (env1 s1).rcvr k % 65536
        else if a.val = s3.rc4ValuesIndex then (env2 s2).rcvr k % 65536
        else (env3 s3).rcvr k % 65536) ∧
      zeroInit.rc4ValuesIndex = 0 ∧
      (∀ c now s t, isr c now s = some t → t.rc4ValuesIndex = s.rc4ValuesIndex) ∧
      (∀ s, (gotNewFrame s).2.rc4ValuesIndex = s.rc4ValuesIndex) ∧
      (∀ n s t, begin n s = some t → t.rc4ValuesIndex = s.rc4ValuesIndex) := by
  obtain ⟨s1, rc1, r1, i1, _, H1, _⟩ := computeRC_fields nchan hn d0 s0 hi
  have e1 : (env1 s1).rc4ValuesIndex < 4 := by rw [(h1 s1).2, i1]; omega
  obtain ⟨s2, rc2, r2, i2, _, H2, _⟩ := computeRC_fields nchan hn d1 (env1 s1) e1
  have e2 : (env2 s2).rc4ValuesIndex < 4 := by rw [(h2 s2).2, i2]; omega
  obtain ⟨s3, rc3, r3, i3, _, H3, _⟩ := computeRC_fields nchan hn d2 (env2 s2) e2
  have e3 : (env3 s3).rc4ValuesIndex < 4 := by rw [(h3 s3).2, i3]; omega
  obtain ⟨s4, rc4, r4, i4, _, H4, _⟩ := computeRC_fields nchan hn d3 (env3 s3) e3
  rw [(h1 s1).2] at i2
  rw [(h2 s2).2] at i3
  rw [(h3 s3).2] at i4
  refine ⟨s1, rc1, s2, rc2, s3, rc3, s4, rc4, r1, r2, r3, r4,
    ⟨i1, i2, i3, i4, by omega⟩, ⟨by omega, by omega, by omega, by omega⟩, ?_, ?_, rfl, ?_, ?_,
    fun n s t h => begin_index n s t h⟩
  · intro k a
    rw [H1 k a, i1]
  · intro k hk a
    have ha := a.isLt
    rw [H4 k a, (h3 s3).1, (h3 s3).2, H3 k a, (h2 s2).1, (h2 s2).2, H2 k a, (h1 s1).1,
      (h1 s1).2, H1 k a]
    simp only [hk, true_and]
    by_cases c1 : a.val = s1.rc4ValuesIndex
    · have n4 : ¬ a.val = (s3.rc4ValuesIndex + 1) % 4 := by omega
      have n3 : ¬ a.val = (s2.rc4ValuesIndex + 1) % 4 := by omega
      have n2 : ¬ a.val = (s1.rc4ValuesIndex + 1) % 4 := by omega
      have p1 : a.val = (s0.rc4ValuesIndex + 1) % 4 := by omega
      rw [if_neg n4, if_neg n3, if_neg n2, if_pos p1, if_pos c1]
    · rw [if_neg c1]
      by_cases c2 : a.val = s2.rc4ValuesIndex
      · have n4 : ¬ a.val = (s3.rc4ValuesIndex + 1) % 4 := by omega
        have n3 : ¬ a.val = (s2.rc4ValuesIndex + 1) % 4 := by omega
        have p2 : a.val = (s1.rc4ValuesIndex + 1) % 4 := by omega
        rw [if_neg n4, if_neg n3, if_pos p2, if_pos c2]
      · rw [if_neg c2]
        by_cases c3 : a.val = s3.rc4ValuesIndex
        · have n4 : ¬ a.val = (s3.rc4ValuesIndex + 1) % 4 := by omega
          have p3 : a.val = (s2.rc4ValuesIndex + 1) % 4 := by omega
          rw [if_neg n4, if_pos p3, if_pos c3]
        · have p4 : a.val = (s3.rc4ValuesIndex + 1) % 4 := by omega
          rw [if_neg c3, if_pos p4]
  · intro c now s t h
    obtain ⟨s1, hs1, hf⟩ := isr_fields c now s
    rw [hs1] at h
    cases h
    exact hf.2.2.2.2.2.2.2.2
  · intro s
    rw [gotNewFrame_eq]

/-- C10 on the zero-initialised filter with eight channels: the committed values are
1000, 1100, 1200, 1300 at the four calls. -/
theorem computeRC_shared_index_witness :
    ∃ (s1 : State) (rc1 : Nat → Nat) (s2 : State) (rc2 : Nat → Nat)
      (s3 : State) (rc3 : Nat → Nat) (s4 : State) (rc4 : Nat → Nat),
      computeRC 8 (fun _ => 1500) (setCommitted 1000 zeroInit) = some (s1, rc1) ∧
      computeRC 8 (fun _ => 1500) (setCommitted 1100 s1) = some (s2, rc2) ∧
      computeRC 8 (fun _ => 1500) (setCommitted 1200 s2) = some (s3, rc3) ∧
      computeRC 8 (fun _ => 1500) (setCommitted 1300 s3) = some (s4, rc4) ∧
      (s1.rc4ValuesIndex = ((setCommitted 1000 zeroInit).rc4ValuesIndex + 1) % 4 ∧
        s2.rc4ValuesIndex = (s1.rc4ValuesIndex + 1) % 4 ∧
        s3.rc4ValuesIndex = (s2.rc4ValuesIndex + 1) % 4 ∧
        s4.rc4ValuesIndex = (s3.rc4ValuesIndex + 1) % 4 ∧
        s4.rc4ValuesIndex = (setCommitted 1000 zeroInit).rc4ValuesIndex) ∧
      (s1.rc4ValuesIndex < 4 ∧ s2.rc4ValuesIndex < 4 ∧ s3.rc4ValuesIndex < 4 ∧
        s4.rc4ValuesIndex < 4) ∧
      (∀ (k : Fin 8) (a : Fin 4), s1.rcData4Values k a =
        if k.val < 8 ∧ a.val = s1.rc4ValuesIndex then
          (setCommitted 1000 zeroInit).rcvr k % 65536
        else (setCommitted 1000 zeroInit).rcData4Values k a) ∧
      (∀ k : Fin 8, k.val < 8 → ∀ a : Fin 4, s4.rcData4Values k a =
        if a.val = s1.rc4ValuesIndex then (setCommitted 1000 zeroInit).rcvr k % 65536
        else if a.val = s2.rc4ValuesIndex then (setCommitted 1100 s1).rcvr k % 65536
        else if a.val = s3.rc4ValuesIndex then (setCommitted 1200 s2).rcvr k % 65536
        else (setCommitted 1300 s3).rcvr k % 65536) ∧
      zeroInit.rc4ValuesIndex = 0 ∧
      (∀ c now s t, isr c now s = some t → t.rc4ValuesIndex = s.rc4ValuesIndex) ∧
      (∀ s, (gotNewFrame s).2.rc4ValuesIndex = s.rc4ValuesIndex) ∧
      (∀ n s t, begin n s = some t → t.rc4ValuesIndex = s.rc4ValuesIndex) :=
  computeRC_shared_index 8 (by decide) (setCommitted 1000 zeroInit) (by decide)
    (setCommitted 1100) (setCommitted 1200) (setCommitted 1300)
    (fun _ => ⟨rfl, rfl⟩) (fun _ => ⟨rfl, rfl⟩) (fun _ => ⟨rfl, rfl⟩)
    (fun _ => 1500) (fun _ => 1500) (fun _ => 1500) (fun _ => 1500)

/-- For any ordered thresholds: a frame `[a, b, e]` whose third pulse `e` is an error
pulse is discarded, and the next frame, the single channel pulse `v`, commits `b`
along with `v`: the width `b` of the discarded frame reaches `rcvr[1]`. -/
theorem stale_width_committed (c : Consts) (hc : c.WF) (s : State) (a b e y v : Nat)
    (h0 : s.ppmCounter = 0)
    (ha : c.MINPULSE ≤ a ∧ a ≤ c.MAXPULSE) (hb : c.MINPULSE ≤ b ∧ b ≤ c.MAXPULSE)
    (hv : c.MINPULSE ≤ v ∧ v ≤ c.MAXPULSE)
    (he : isErrorPulse c e) (he2 : e < c.SYNCPULSE)
    (hy : c.SYNCPULSE ≤ y) (hy32 : y < 4294967296) :
    ∃ s2, runIntervals c [a, b, e, y, v, y] s = some s2 ∧ s2.rcvr 0 = v ∧ s2.rcvr 1 = b := by
  have hsync := hc.2.2
  have hab : ∀ w ∈ [a, b], c.MINPULSE ≤ w ∧ w ≤ c.MAXPULSE := by
    intro w hw
    simp only [List.mem_cons, List.mem_singleton, List.not_mem_nil, or_false] at hw
    rcases hw with h | h <;> rw [h] <;> assumption
  obtain ⟨s1, r1, _, _, _, _, t1⟩ := run_channels c hc [a, b] s hab (by omega)
  obtain ⟨s2, r2, _, _, _, c2, _, t2, _⟩ := isrAfter_fields c e s1 (by omega)
  obtain ⟨s3, r3, _, _, _, c3, _, t3, _⟩ := isrAfter_fields c y s2 hy32
  have hvl : ∀ w ∈ [v], c.MINPULSE ≤ w ∧ w ≤ c.MAXPULSE := by
    intro w hw
    simp only [List.mem_singleton] at hw
    rw [hw]; exact hv
  obtain ⟨s5, r5, rc5, _⟩ := run_frame_commit c hc [v] y s3 hvl
    (by rw [c3, if_pos hy]) hy hy32
  refine ⟨s5, ?_, ?_, ?_⟩
  · have hsplit : [a, b, e, y, v, y] = [a, b] ++ ([e] ++ ([y] ++ ([v] ++ [y]))) := rfl
    rw [hsplit, runIntervals_append, r1]
    simp only [Option.bind, List.singleton_append, runIntervals, r2, r3]
    exact r5
  · rw [rc5 0]
    simp
  · rw [rc5 1]
    have h1 : ¬ (((1 : Fin 8) : Nat) < [v].length) := by simp
    rw [if_neg h1, t3 1, if_neg (fun h => by have := h.1; omega), t2 1,
      if_neg (fun h => h.2.1 he), t1 1, h0]
    simp

/-- The seeding loop of `begin` over the slots below `n`, in bounds as long as `n` is
at most 8: those slots of both arrays get 1500, nothing else changes. -/
theorem begin_loop (s : State) :
    ∀ n, n ≤ 8 →
      ∃ s1 : State,
        forRange n (fun k st => do
          let r ← writeAt st.rcvr k 1500
          let t ← writeAt st.ppmTmp k 1500
          pure { st with rcvr := r, ppmTmp := t }) s = some s1 ∧
        (∀ k : Fin 8, s1.rcvr k = if k.val < n then 1500 else s.rcvr k) ∧
        (∀ k : Fin 8, s1.ppmTmp k = if k.val < n then 1500 else s.ppmTmp k) ∧
        s1.startPulse = s.startPulse ∧ s1.ppmCounter = s.ppmCounter ∧
        s1.ppmError = s.ppmError ∧ s1.got_new_frame = s.got_new_frame ∧
        s1.rcData4Values = s.rcData4Values ∧ s1.rcDataMean = s.rcDataMean ∧
        s1.rc4ValuesIndex = s.rc4ValuesIndex := by
  intro n
  induction n with
  | zero =>
    intro _
    refine ⟨s, forRange_zero _ _, ?_, ?_, rfl, rfl, rfl, rfl, rfl, rfl, rfl⟩
    · intro k; simp
    · intro k; simp
  | succ n ih =>
    intro hn
    have hn8 : n < 8 := by omega
    obtain ⟨s1, hrun, hr, ht, h1, h2, h3, h4, h5, h6, h7⟩ := ih (by omega)
    refine ⟨{ s1 with rcvr := Function.update s1.rcvr ⟨n, hn8⟩ 1500,
                      ppmTmp := Function.update s1.ppmTmp ⟨n, hn8⟩ 1500 },
      ?_, ?_, ?_, h1, h2, h3, h4, h5, h6, h7⟩
    · rw [forRange_succ, hrun]
      simp [writeAt, hn8]
    · intro k
      by_cases hkn : k = ⟨n, hn8⟩
      · subst hkn
        simp
      · have hne : k.val ≠ n := fun h => hkn (Fin.ext h)
        simp only [Function.update_noteq hkn]
        rw [hr k]
        by_cases hlt : k.val < n
        · rw [if_pos hlt, if_pos (by omega)]
        · rw [if_neg hlt, if_neg (by omega)]
    · intro k
      by_cases hkn : k = ⟨n, hn8⟩
      · subst hkn
        simp
      · have hne : k.val ≠ n := fun h => hkn (Fin.ext h)
        simp only [Function.update_noteq hkn]
        rw [ht k]
        by_cases hlt : k.val < n
        · rw [if_pos hlt, if_pos (by omega)]
        · rw [if_neg hlt, if_neg (by omega)]

/-- Every field after `begin` with at most eight channels. -/
theorem begin_fields (nchan : Nat) (hn : nchan ≤ 8) (s : State) :
    ∃ s1 : State, begin nchan s = some s1 ∧
      (∀ k : Fin 8, s1.rcvr k = if k.val < nchan then 1500 else s.rcvr k) ∧
      (∀ k : Fin 8, s1.ppmTmp k = if k.val < nchan then 1500 else s.ppmTmp k) ∧
      s1.ppmCounter = 0 ∧ s1.ppmError = 0 ∧
      s1.startPulse = s.startPulse ∧ s1.got_new_frame = s.got_new_frame ∧
      s1.rcData4Values = s.rcData4Values ∧ s1.rcDataMean = s.rcDataMean ∧
      s1.rc4ValuesIndex = s.rc4ValuesIndex := by
  obtain ⟨s1, hrun, hr, ht, h1, _, _, h4, h5, h6, h7⟩ := begin_loop s nchan hn
  refine ⟨{ s1 with ppmCounter := 0, ppmError := 0 }, ?_, hr, ht, rfl, rfl, h1, h4, h5, h6, h7⟩
  unfold begin
  simp only [Option.bind_eq_bind]
  show (forRange nchan (fun k st => do
          let r ← writeAt st.rcvr k 1500
          let t ← writeAt st.ppmTmp k 1500
          pure { st with rcvr := r, ppmTmp := t }) s).bind _ = _
  rw [hrun]
  rfl

/-- C11 (initialisation): for every channel count `nchan` of at most 8 and every prior
state, `begin` returns (no array slot outside `0..7` is accessed), leaves 1500 in every
slot of `rcvr` and of `ppmTmp` with index below `nchan`, the cursor at 0 and the error
counter at 0; the slots from `nchan` on keep their former content. -/
theorem begin_initialises (nchan : Nat) (hn : nchan ≤ 8) (s : State) :
    ∃ s1 : State, begin nchan s = some s1 ∧
      (∀ k : Fin 8, k.val < nchan → s1.rcvr k = 1500 ∧ s1.ppmTmp k = 1500) ∧
      s1.ppmCounter = 0 ∧ s1.ppmError = 0 ∧
      (∀ k : Fin 8, nchan ≤ k.val → s1.rcvr k = s.rcvr k ∧ s1.ppmTmp k = s.ppmTmp k) := by
  obtain ⟨s1, hrun, hr, ht, hc, he, _⟩ := begin_fields nchan hn s
  refine ⟨s1, hrun, ?_, hc, he, ?_⟩
  · intro k hk
    rw [hr k, ht k, if_pos hk, if_pos hk]
    exact ⟨rfl, rfl⟩
  · intro k hk
    rw [hr k, ht k, if_neg (by omega), if_neg (by omega)]
    exact ⟨rfl, rfl⟩

/-- C11 for six channels on the zero-initialised statics. -/
theorem begin_initialises_witness :
    ∃ s1 : State, begin 6 zeroInit = some s1 ∧
      (∀ k : Fin 8, k.val < 6 → s1.rcvr k = 1500 ∧ s1.ppmTmp k = 1500) ∧
      s1.ppmCounter = 0 ∧ s1.ppmError = 0 ∧
      (∀ k : Fin 8, 6 ≤ k.val → s1.rcvr k = zeroInit.rcvr k ∧
        s1.ppmTmp k = zeroInit.ppmTmp k) :=
  begin_initialises 6 (by decide) zeroInit

/-- The handler uses the previous timestamp only to form the pulse width: two calls
that measure the same width from states differing in the timestamp alone end in states
differing in the timestamp alone. -/
theorem isr_width_only (c : Consts) (now now2 p2 : Nat) (s : State)
    (h : sub32 now s.startPulse = sub32 now2 p2) :
    isr c now s =
      (isr c now2 { s with startPulse := p2 }).map (fun t => { t with startPulse := now }) := by
  unfold isr
  simp only [h, copyFrame_eq]
  split_ifs <;> simp [writeAt, *]

/-- C19 (pulse width survives clock wrap-around): for every previous timestamp
`s.startPulse` and every elapsed time `d` below `2^32`, when the 32-bit clock reads
`(s.startPulse + d) mod 2^32` the width `isr` computes is exactly `d`, whether or not
the clock wrapped in between; the call is handled exactly as the width `d` measured
from timestamp 0 with the clock reading `d` (same resulting state up to the stored
timestamp), and its classification is that of `d`. -/
theorem isr_width_survives_wrap (c : Consts) (s : State) (d : Nat) (hd : d < 4294967296) :
    sub32 ((s.startPulse + d) % 4294967296) s.startPulse = d ∧
    ∃ s1 t1, isr c ((s.startPulse + d) % 4294967296) s = some s1 ∧
      isr c d { s with startPulse := 0 } = some t1 ∧
      s1 = { t1 with startPulse := (s.startPulse + d) % 4294967296 } ∧
      s1.got_new_frame = (if c.SYNCPULSE ≤ d then true else s.got_new_frame) ∧
      s1.ppmError = (if isErrorPulse c d then (s.ppmError + 1) % 65536 else s.ppmError) ∧
      s1.ppmCounter =
        (if c.SYNCPULSE ≤ d then 0
         else if isErrorPulse c d then 9
         else if s.ppmCounter < 8 then s.ppmCounter + 1 else s.ppmCounter) := by
  have hw := sub32_after s.startPulse d hd
  have h0 : sub32 d 0 = d := by unfold sub32; omega
  obtain ⟨t1, ht1, _⟩ := isr_fields c d { s with startPulse := 0 }
  obtain ⟨s1, hs1, _, hg, he, hc, _⟩ := isrAfter_fields c d s hd
  have heq := isr_width_only c ((s.startPulse + d) % 4294967296) d 0 s (by rw [hw, h0])
  unfold isrAfter at hs1
  rw [hs1, ht1] at heq
  simp only [Option.map_some'] at heq
  exact ⟨hw, s1, t1, hs1, ht1, Option.some.inj heq, hg, he, hc⟩

/-- C19 across a wrap: the previous edge at 4294967000, the next one 1500 microseconds
later, when the clock reads 1204. -/
theorem isr_width_survives_wrap_witness :
    sub32 ((4294967000 + 1500) % 4294967296) 4294967000 = 1500 ∧
    ∃ s1 t1, isr ⟨800, 2200, 2700⟩ ((4294967000 + 1500) % 4294967296)
        { zeroInit with startPulse := 4294967000 } = some s1 ∧
      isr ⟨800, 2200, 2700⟩ 1500 { zeroInit with startPulse := 0 } = some t1 ∧
      s1 = { t1 with startPulse := (4294967000 + 1500) % 4294967296 } ∧
      s1.got_new_frame = (if 2700 ≤ 1500 then true else false) ∧
      s1.ppmError = (if isErrorPulse ⟨800, 2200, 2700⟩ 1500 then (0 + 1) % 65536 else 0) ∧
      s1.ppmCounter =
        (if 2700 ≤ 1500 then 0
         else if isErrorPulse ⟨800, 2200, 2700⟩ 1500 then 9
         else if 0 < 8 then 0 + 1 else 0) :=
  isr_width_survives_wrap ⟨800, 2200, 2700⟩ { zeroInit with startPulse := 4294967000 } 1500
    (by decide)

/-- C13 (channel overflow is a silent no-op): in every state whose cursor is at least 8
(the full frame, or the sentinel 9) an interval within `[MINPULSE, MAXPULSE]` is handled
by changing the pulse-start timestamp and nothing else: working array, committed array,
cursor, error counter and flag stay as they are. -/
theorem isr_overflow_noop (c : Consts) (hc : c.WF) (s : State) (w : Nat)
    (hcur : 8 ≤ s.ppmCounter) (h1 : c.MINPULSE ≤ w) (h2 : w ≤ c.MAXPULSE) :
    isrAfter c w s = some { s with startPulse := (s.startPulse + w) % 4294967296 } ∧
    ∃ s1, isrAfter c w s = some s1 ∧ s1.ppmTmp = s.ppmTmp ∧ s1.rcvr = s.rcvr ∧
      s1.ppmCounter = s.ppmCounter ∧ s1.ppmError = s.ppmError ∧
      s1.got_new_frame = s.got_new_frame := by
  obtain ⟨_, c2, c3⟩ := hc
  have hsub := sub32_after s.startPulse w (by omega)
  have hstep := isr_channel_full c ((s.startPulse + w) % 4294967296) s
    (by rw [hsub]; exact h1) (by rw [hsub]; exact h2) (by rw [hsub]; omega) hcur
  exact ⟨hstep, _, hstep, rfl, rfl, rfl, rfl, rfl⟩

/-- C13 at thresholds 800 / 2200 / 2700 with the cursor at the sentinel 9. -/
theorem isr_overflow_noop_witness :
    isrAfter ⟨800, 2200, 2700⟩ 1500 { zeroInit with ppmCounter := 9 } =
      some { ({ zeroInit with ppmCounter := 9 } : State) with
        startPulse := (0 + 1500) % 4294967296 } ∧
    ∃ s1, isrAfter ⟨800, 2200, 2700⟩ 1500 { zeroInit with ppmCounter := 9 } = some s1 ∧
      s1.ppmTmp = zeroInit.ppmTmp ∧ s1.rcvr = zeroInit.rcvr ∧
      s1.ppmCounter = 9 ∧ s1.ppmError = 0 ∧ s1.got_new_frame = false :=
  isr_overflow_noop ⟨800, 2200, 2700⟩ (by decide) { zeroInit with ppmCounter := 9 } 1500
    (by decide) (by decide) (by decide)

/-- Over a run the 16-bit error counter advances by the number of error pulses,
modulo `2^16`. -/
theorem run_errors (c : Consts) :
    ∀ (ws : List Nat) (s : State), (∀ w ∈ ws, w < 4294967296) →
      ∃ s2, runIntervals c ws s = some s2 ∧
        s2.ppmError % 65536 = (s.ppmError + errorCount c ws) % 65536 ∧
        (s.ppmError < 65536 → s2.ppmError < 65536) := by
  intro ws
  induction ws with
  | nil =>
    intro s _
    exact ⟨s, rfl, by simp [errorCount], fun h => h⟩
  | cons w ws ih =>
    intro s hv
    obtain ⟨s1, hstep, _, _, he1, _⟩ :=
      isrAfter_fields c w s (hv w (List.mem_cons_self w ws))
    obtain ⟨s2, hrun, he2, hlt2⟩ := ih s1 (fun x hx => hv x (List.mem_cons_of_mem w hx))
    refine ⟨s2, ?_, ?_, ?_⟩
    · simp only [runIntervals, hstep, Option.bind]
      exact hrun
    · rw [he2, he1]
      unfold errorCount
      rw [List.countP_cons]
      by_cases hw : isErrorPulse c w
      · simp only [hw, if_true, decide_True]
        omega
      · simp only [hw, if_false, decide_False]
        simp
    · intro h
      apply hlt2
      rw [he1]
      by_cases hw : isErrorPulse c w
      · rw [if_pos hw]; omega
      · rw [if_neg hw]; exact h

/-- C12 as stated fails: with `ppmError` at 65535 an error pulse (500 at thresholds
800 / 2200 / 2700) makes the counter 0, which is smaller and not one larger; and from
`begin()`, after 65536 error pulses the counter reads 0, not 65536. -/
theorem isr_error_counter_wraps :
    (∃ s1, isrAfter ⟨800, 2200, 2700⟩ 500 { zeroInit with ppmError := 65535 } = some s1 ∧
      isErrorPulse ⟨800, 2200, 2700⟩ 500 ∧ s1.ppmError = 0 ∧
      ¬ (({ zeroInit with ppmError := 65535 } : State).ppmError ≤ s1.ppmError) ∧
      ¬ (s1.ppmError = ({ zeroInit with ppmError := 65535 } : State).ppmError + 1)) ∧
    (∃ b s2, begin 8 zeroInit = some b ∧
      runIntervals ⟨800, 2200, 2700⟩ (List.replicate 65536 500) b = some s2 ∧
      errorCount ⟨800, 2200, 2700⟩ (List.replicate 65536 500) = 65536 ∧
      s2.ppmError = 0 ∧
      ¬ (s2.ppmError = errorCount ⟨800, 2200, 2700⟩ (List.replicate 65536 500))) := by
  have hcount : errorCount ⟨800, 2200, 2700⟩ (List.replicate 65536 500) = 65536 := by
    unfold errorCount
    rw [List.countP_replicate]
    decide
  constructor
  · refine ⟨_, rfl, ?_, ?_, ?_, ?_⟩ <;> decide
  · obtain ⟨b, hb, _, _, _, hbe, _⟩ := begin_fields 8 (le_refl 8) zeroInit
    obtain ⟨s2, hrun, he, hlt⟩ := run_errors ⟨800, 2200, 2700⟩ (List.replicate 65536 500) b
      (by
        intro w hw
        rw [(List.mem_replicate.mp hw).2]
        decide)
    have h0 : s2.ppmError = 0 := by
      have := hlt (by rw [hbe]; decide)
      rw [hbe, hcount] at he
      omega
    refine ⟨b, s2, hb, hrun, hcount, h0, ?_⟩
    rw [h0, hcount]
    decide

/-- C12 amended: one `isr` call makes `ppmError` one larger modulo `2^16` when the
interval is an error pulse and leaves it unchanged otherwise; so while `ppmError` is
below 65535 the call never decreases it and an error pulse makes it exactly one
larger; and after any edge sequence from `begin()` the counter equals the number of
error pulses in the sequence modulo `2^16`, hence that number itself while it is
below 65536. -/
theorem isr_error_counter (c : Consts) (s : State) (w : Nat) (hw : w < 4294967296)
    (nchan : Nat) (hn : nchan ≤ 8) (s0 : State) (ws : List Nat)
    (hws : ∀ x ∈ ws, x < 4294967296) :
    (∃ s1, isrAfter c w s = some s1 ∧
      s1.ppmError = (if isErrorPulse c w then (s.ppmError + 1) % 65536 else s.ppmError) ∧
      (s.ppmError < 65535 → s.ppmError ≤ s1.ppmError ∧
        (isErrorPulse c w → s1.ppmError = s.ppmError + 1))) ∧
    (∃ b s2, begin nchan s0 = some b ∧ runIntervals c ws b = some s2 ∧
      s2.ppmError = errorCount c ws % 65536 ∧
      (errorCount c ws < 65536 → s2.ppmError = errorCount c ws)) := by
  constructor
  · obtain ⟨s1, hstep, _, _, he1, _⟩ := isrAfter_fields c w s hw
    refine ⟨s1, hstep, he1, ?_⟩
    intro hlt
    rw [he1]
    by_cases hwe : isErrorPulse c w
    · simp only [hwe, if_true, true_implies]
      omega
    · simp only [hwe, if_false, false_implies, and_true]
      exact le_refl _
  · obtain ⟨b, hb, _, _, _, hbe, _⟩ := begin_fields nchan hn s0
    obtain ⟨s2, hrun, he, hlt⟩ := run_errors c ws b hws
    have h2 := hlt (by rw [hbe]; decide)
    rw [hbe] at he
    refine ⟨b, s2, hb, hrun, ?_, ?_⟩
    · omega
    · intro h
      omega

/-- C12 amended, at thresholds 800 / 2200 / 2700: the pulse 500 on a fresh counter, and
the sequence `[1500, 500, 2400, 3000]` with its two error pulses after `begin()`. -/
theorem isr_error_counter_witness :
    (∃ s1, isrAfter ⟨800, 2200, 2700⟩ 500 zeroInit = some s1 ∧
      s1.ppmError =
        (if isErrorPulse ⟨800, 2200, 2700⟩ 500 then (zeroInit.ppmError + 1) % 65536
         else zeroInit.ppmError) ∧
      (zeroInit.ppmError < 65535 → zeroInit.ppmError ≤ s1.ppmError ∧
        (isErrorPulse ⟨800, 2200, 2700⟩ 500 → s1.ppmError = zeroInit.ppmError + 1))) ∧
    (∃ b s2, begin 8 zeroInit = some b ∧
      runIntervals ⟨800, 2200, 2700⟩ [1500, 500, 2400, 3000] b = some s2 ∧
      s2.ppmError = errorCount ⟨800, 2200, 2700⟩ [1500, 500, 2400, 3000] % 65536 ∧
      (errorCount ⟨800, 2200, 2700⟩ [1500, 500, 2400, 3000] < 65536 →
        s2.ppmError = errorCount ⟨800, 2200, 2700⟩ [1500, 500, 2400, 3000])) :=
  isr_error_counter ⟨800, 2200, 2700⟩ zeroInit 500 (by decide) 8 (by decide) zeroInit
    [1500, 500, 2400, 3000] (by decide)

/-- One edge keeps the cursor invariant, the frame in progress being advanced by the
width of the edge. -/
theorem isrAfter_cursorInv (c : Consts) (hc : c.WF) (w : Nat) (hw : w < 4294967296)
    (s : State) (p : Bool × List Nat) (hinv : cursorInv s p) :
    ∃ s1, isrAfter c w s = some s1 ∧ cursorInv s1 (frameProgress c [w] p) := by
  obtain ⟨c1, c2, c3⟩ := hc
  obtain ⟨hcnt, htmp⟩ := hinv
  obtain ⟨s1, hstep, _, _, _, hc1, _, ht1, _⟩ := isrAfter_fields c w s hw
  refine ⟨s1, hstep, ?_⟩
  by_cases he : isErrorPulse c w
  · have hns : ¬ c.SYNCPULSE ≤ w := by unfold isErrorPulse at he; omega
    simp only [frameProgress, he, if_true]
    refine ⟨?_, ?_⟩
    · rw [hc1, if_neg hns, if_pos he]; rfl
    · intro h; cases h
  · by_cases hs : c.SYNCPULSE ≤ w
    · simp only [frameProgress, he, hs, if_true, if_false]
      refine ⟨?_, ?_⟩
      · rw [hc1, if_pos hs]; rfl
      · intro _ i hi
        simp at hi
    · have hv : c.MINPULSE ≤ w ∧ w ≤ c.MAXPULSE := by unfold isErrorPulse at he; omega
      have hmod : w % 65536 = w := by omega
      simp only [frameProgress, he, hs, if_false]
      rw [if_neg hs, if_neg he] at hc1
      cases hb : p.1 with
      | true =>
        rw [hb] at hcnt
        simp only [if_true] at hcnt
        refine ⟨?_, ?_⟩
        · rw [hc1, hcnt]
          simp
        · intro h; cases h
      | false =>
        rw [hb] at hcnt
        simp only [Bool.false_eq_true, if_false] at hcnt
        have htmp2 := htmp hb
        refine ⟨?_, ?_⟩
        · simp only [Bool.false_eq_true, if_false, List.length_append, List.length_singleton]
          rw [hc1, hcnt]
          by_cases h8 : p.2.length < 8
          · rw [if_pos (by omega)]; omega
          · rw [if_neg (by omega)]; omega
        · intro _ i hi
          simp only [Bool.false_eq_true, if_false, List.length_append,
            List.length_singleton] at hi ⊢
          rw [ht1 i]
          by_cases hic : i.val = s.ppmCounter
          · have hlen : i.val = p.2.length := by have := i.isLt; omega
            rw [if_pos ⟨by omega, he, hic⟩, hmod, hlen,
              List.getD_append_right _ _ _ _ (le_refl _)]
            simp
          · have hlt : i.val < p.2.length := by have := i.isLt; omega
            rw [if_neg (fun h => hic h.2.2), htmp2 i hlt, List.getD_append _ _ _ _ hlt]

theorem frameProgress_cons (c : Consts) (w : Nat) (ws : List Nat) (p : Bool × List Nat) :
    frameProgress c (w :: ws) p = frameProgress c ws (frameProgress c [w] p) := by
  simp only [frameProgress]
  split_ifs <;> rfl

/-- A run of edges keeps the cursor invariant. -/
theorem run_cursorInv (c : Consts) (hc : c.WF) :
    ∀ (ws : List Nat) (s : State) (p : Bool × List Nat), (∀ w ∈ ws, w < 4294967296) →
      cursorInv s p →
      ∃ s2, runIntervals c ws s = some s2 ∧ cursorInv s2 (frameProgress c ws p) := by
  intro ws
  induction ws with
  | nil => intro s p _ h; exact ⟨s, rfl, h⟩
  | cons w ws ih =>
    intro s p hv hinv
    obtain ⟨s1, hstep, hinv1⟩ :=
      isrAfter_cursorInv c hc w (hv w (List.mem_cons_self w ws)) s p hinv
    obtain ⟨s2, hrun, hinv2⟩ := ih s1 _ (fun x hx => hv x (List.mem_cons_of_mem w hx)) hinv1
    refine ⟨s2, ?_, ?_⟩
    · simp only [runIntervals, hstep, Option.bind]
      exact hrun
    · rw [frameProgress_cons]
      exact hinv2

/-- C15 (cursor invariant): after `begin()` and any sequence of edges, the cursor is
within `0..9` (so the 8-bit variable never wraps); it is 9 exactly when the frame in
progress has seen an error pulse since the last sync pulse; otherwise it is the number
of channel pulses of the frame in progress, capped at 8, and the working array holds
these pulses, in order, in the slots below the cursor. -/
theorem isr_cursor_invariant (c : Consts) (hc : c.WF) (nchan : Nat) (hn : nchan ≤ 8)
    (s0 : State) (ws : List Nat) (hws : ∀ w ∈ ws, w < 4294967296) :
    ∃ b s2, begin nchan s0 = some b ∧ runIntervals c ws b = some s2 ∧
      s2.ppmCounter ≤ 9 ∧
      (s2.ppmCounter = 9 ↔ (frameProgress c ws (false, [])).1 = true) ∧
      ((frameProgress c ws (false, [])).1 = false →
        s2.ppmCounter = min (frameProgress c ws (false, [])).2.length 8 ∧
        ∀ i : Fin 8, i.val < s2.ppmCounter →
          s2.ppmTmp i = (frameProgress c ws (false, [])).2.getD i.val 0) := by
  obtain ⟨b, hb, _, _, hbc, _⟩ := begin_fields nchan hn s0
  have hinv0 : cursorInv b (false, []) := by
    refine ⟨?_, ?_⟩
    · rw [hbc]; rfl
    · intro _ i hi
      simp at hi
  obtain ⟨s2, hrun, hcnt, htmp⟩ := run_cursorInv c hc ws b (false, []) hws hinv0
  refine ⟨b, s2, hb, hrun, ?_, ?_, ?_⟩
  · rw [hcnt]
    split_ifs <;> omega
  · rw [hcnt]
    cases (frameProgress c ws (false, [])).1 with
    | true => simp
    | false =>
      simp only [Bool.false_eq_true, if_false, iff_false]
      omega
  · intro hb2
    rw [hb2] at hcnt
    simp only [Bool.false_eq_true, if_false] at hcnt
    refine ⟨hcnt, ?_⟩
    intro i hi
    exact htmp hb2 i (by omega)

/-- C15 at thresholds 800 / 2200 / 2700: after `begin()`, a sync, two channel pulses,
an error pulse and one more channel pulse. -/
theorem isr_cursor_invariant_witness :
    ∃ b s2, begin 8 zeroInit = some b ∧
      runIntervals ⟨800, 2200, 2700⟩ [3000, 1500, 1600, 500, 1700] b = some s2 ∧
      s2.ppmCounter ≤ 9 ∧
      (s2.ppmCounter = 9 ↔
        (frameProgress ⟨800, 2200, 2700⟩ [3000, 1500, 1600, 500, 1700] (false, [])).1 = true) ∧
      ((frameProgress ⟨800, 2200, 2700⟩ [3000, 1500, 1600, 500, 1700] (false, [])).1 = false →
        s2.ppmCounter =
          min (frameProgress ⟨800, 2200, 2700⟩ [3000, 1500, 1600, 500, 1700]
            (false, [])).2.length 8 ∧
        ∀ i : Fin 8, i.val < s2.ppmCounter →
          s2.ppmTmp i = (frameProgress ⟨800, 2200, 2700⟩ [3000, 1500, 1600, 500, 1700]
            (false, [])).2.getD i.val 0) :=
  isr_cursor_invariant ⟨800, 2200, 2700⟩ (by decide) 8 (by decide) zeroInit
    [3000, 1500, 1600, 500, 1700] (by decide)

/-- One `isr` call stores at most one width, a channel-range width kept whole, into the
working array, and the committed array changes only by taking over the working
array. -/
theorem isr_stores_valid (c : Consts) (hc : c.WF) (now : Nat) (s : State) :
    ∃ s1, isr c now s = some s1 ∧
      (∀ i : Fin 8, s1.ppmTmp i = s.ppmTmp i ∨
        (s1.ppmTmp i = sub32 now s.startPulse ∧ c.MINPULSE ≤ sub32 now s.startPulse ∧
          sub32 now s.startPulse ≤ c.MAXPULSE)) ∧
      (s1.rcvr = s.rcvr ∨ s1.rcvr = s.ppmTmp) := by
  obtain ⟨c1, c2, c3⟩ := hc
  obtain ⟨s1, hstep, _, _, _, _, hr, ht, _⟩ := isr_fields c now s
  refine ⟨s1, hstep, ?_, ?_⟩
  · intro i
    rw [ht i]
    by_cases h : sub32 now s.startPulse < c.SYNCPULSE ∧
        ¬ isErrorPulse c (sub32 now s.startPulse) ∧ i.val = s.ppmCounter
    · rw [if_pos h]
      right
      have hne := h.2.1
      unfold isErrorPulse at hne
      have h1 : c.MINPULSE ≤ sub32 now s.startPulse := by omega
      have h2 : sub32 now s.startPulse ≤ c.MAXPULSE := by omega
      exact ⟨by omega, h1, h2⟩
    · rw [if_neg h]
      left; rfl
  · rw [hr]
    split_ifs
    · right; rfl
    · left; rfl

/-- A run of `isr` calls keeps both arrays within the channel range. -/
theorem runClock_range (c : Consts) (hc : c.WF) :
    ∀ (nows : List Nat) (s : State),
      (∀ i : Fin 8, c.MINPULSE ≤ s.ppmTmp i ∧ s.ppmTmp i ≤ c.MAXPULSE ∧
        c.MINPULSE ≤ s.rcvr i ∧ s.rcvr i ≤ c.MAXPULSE) →
      ∃ s2, runClock c nows s = some s2 ∧
        ∀ i : Fin 8, c.MINPULSE ≤ s2.ppmTmp i ∧ s2.ppmTmp i ≤ c.MAXPULSE ∧
          c.MINPULSE ≤ s2.rcvr i ∧ s2.rcvr i ≤ c.MAXPULSE := by
  intro nows
  induction nows with
  | nil => intro s h; exact ⟨s, rfl, h⟩
  | cons now rest ih =>
    intro s h
    obtain ⟨s1, hstep, ht, hr⟩ := isr_stores_valid c hc now s
    have h1 : ∀ i : Fin 8, c.MINPULSE ≤ s1.ppmTmp i ∧ s1.ppmTmp i ≤ c.MAXPULSE ∧
        c.MINPULSE ≤ s1.rcvr i ∧ s1.rcvr i ≤ c.MAXPULSE := by
      intro i
      have hi := h i
      refine ⟨?_, ?_, ?_, ?_⟩
      · rcases ht i with e | ⟨e, e1, _⟩
        · rw [e]; exact hi.1
        · rw [e]; exact e1
      · rcases ht i with e | ⟨e, _, e2⟩
        · rw [e]; exact hi.2.1
        · rw [e]; exact e2
      · rcases hr with e | e
        · rw [e]; exact hi.2.2.1
        · rw [e]; exact hi.1
      · rcases hr with e | e
        · rw [e]; exact hi.2.2.2
        · rw [e]; exact hi.2.1
    obtain ⟨s2, hrun, h2⟩ := ih s1 h1
    refine ⟨s2, ?_, h2⟩
    simp only [runClock, hstep, Option.bind]
    exact hrun

/-- C17 (committed values stay in the valid pulse range): after `begin()` with eight
channels, and with 1500 inside `[MINPULSE, MAXPULSE]`, every sequence of `isr` calls
leaves every element of `ppmTmp` and of `rcvr` within `[MINPULSE, MAXPULSE]`; in any
state a call stores nothing into `ppmTmp` but a width within that range, kept whole
by the 16-bit store, and changes `rcvr` only by copying `ppmTmp`. -/
theorem isr_values_in_range (c : Consts) (hc : c.WF) (h1500 : c.MINPULSE ≤ 1500)
    (h1500b : 1500 ≤ c.MAXPULSE) (s0 : State) (nows : List Nat) :
    (∃ b s2, begin 8 s0 = some b ∧ runClock c nows b = some s2 ∧
      ∀ i : Fin 8, c.MINPULSE ≤ s2.ppmTmp i ∧ s2.ppmTmp i ≤ c.MAXPULSE ∧
        c.MINPULSE ≤ s2.rcvr i ∧ s2.rcvr i ≤ c.MAXPULSE) ∧
    (∀ (t : State) (now : Nat), ∃ t1, isr c now t = some t1 ∧
      (∀ i : Fin 8, t1.ppmTmp i = t.ppmTmp i ∨
        (t1.ppmTmp i = sub32 now t.startPulse ∧ c.MINPULSE ≤ sub32 now t.startPulse ∧
          sub32 now t.startPulse ≤ c.MAXPULSE)) ∧
      (t1.rcvr = t.rcvr ∨ t1.rcvr = t.ppmTmp)) := by
  refine ⟨?_, fun t now => isr_stores_valid c hc now t⟩
  obtain ⟨b, hb, hr, ht, _⟩ := begin_fields 8 (le_refl 8) s0
  obtain ⟨s2, hrun, h2⟩ := runClock_range c hc nows b (by
    intro i
    rw [hr i, ht i, if_pos i.isLt, if_pos i.isLt]
    exact ⟨h1500, h1500b, h1500, h1500b⟩)
  exact ⟨b, s2, hb, hrun, h2⟩

/-- C17 at thresholds 800 / 2200 / 2700 for the clock readings 1500, 2000, 9000,
9100. -/
theorem isr_values_in_range_witness :
    (∃ b s2, begin 8 zeroInit = some b ∧
      runClock ⟨800, 2200, 2700⟩ [1500, 2000, 9000, 9100] b = some s2 ∧
      ∀ i : Fin 8, 800 ≤ s2.ppmTmp i ∧ s2.ppmTmp i ≤ 2200 ∧
        800 ≤ s2.rcvr i ∧ s2.rcvr i ≤ 2200) ∧
    (∀ (t : State) (now : Nat), ∃ t1, isr ⟨800, 2200, 2700⟩ now t = some t1 ∧
      (∀ i : Fin 8, t1.ppmTmp i = t.ppmTmp i ∨
        (t1.ppmTmp i = sub32 now t.startPulse ∧ 800 ≤ sub32 now t.startPulse ∧
          sub32 now t.startPulse ≤ 2200)) ∧
      (t1.rcvr = t.rcvr ∨ t1.rcvr = t.ppmTmp)) :=
  isr_values_in_range ⟨800, 2200, 2700⟩ (by decide) (by decide) (by decide) zeroInit
    [1500, 2000, 9000, 9100]

/-- A loop commutes with a change of the state that every pass of its body commutes
with. -/
theorem forRange_map_comm {σ : Type} (g : σ → σ) (body : Nat → σ → Option σ)
    (hb : ∀ k a, body k (g a) = (body k a).map g) :
    ∀ (n : Nat) (a : σ), forRange n body (g a) = (forRange n body a).map g := by
  intro n
  induction n with
  | zero => intro a; simp [forRange_zero]
  | succ n ih =>
    intro a
    rw [forRange_succ, forRange_succ, ih]
    cases forRange n body a with
    | none => rfl
    | some m => simp [hb]

/-- The accumulation loop does not look at the working array. -/
theorem accumulate_ppmTmp (chan : Nat) (s : State) (t : Fin 8 → Nat) :
    accumulate chan { s with ppmTmp := t } =
      (accumulate chan s).map (fun r => { r with ppmTmp := t }) := by
  by_cases hc : chan < 8
  · rw [accumulate_eq chan hc, accumulate_eq chan hc]
    rfl
  · unfold accumulate
    simp [forRange_succ, forRange_zero, readAt, hc]

/-- One pass of the channel loop does not look at the working array. -/
theorem computeRC_chan_ppmTmp (rawRC : Fin 8 → Nat) (chan : Nat) (t : Fin 8 → Nat)
    (p : State × (Nat → Nat)) :
    computeRC_chan rawRC chan ({ p.1 with ppmTmp := t }, p.2) =
      (computeRC_chan rawRC chan p).map (fun r => ({ r.1 with ppmTmp := t }, r.2)) := by
  obtain ⟨s, rc⟩ := p
  by_cases hc : chan < 8
  · by_cases hi : s.rc4ValuesIndex < 4
    · rw [computeRC_chan_eq rawRC chan hc s hi rc]
      exact computeRC_chan_eq rawRC chan hc { s with ppmTmp := t } hi rc
    · unfold computeRC_chan
      simp [readAt, writeAt, writeAt2, hc, hi]
  · unfold computeRC_chan
    simp [readAt, hc]

/-- The method `computeRC` does not look at the working array: replacing `ppmTmp`
beforehand changes nothing in its result but `ppmTmp` itself. -/
theorem computeRC_ppmTmp (nchan : Nat) (rcData : Nat → Nat) (s : State) (t : Fin 8 → Nat) :
    computeRC nchan rcData { s with ppmTmp := t } =
      (computeRC nchan rcData s).map (fun r => ({ r.1 with ppmTmp := t }, r.2)) := by
  unfold computeRC
  simp only [Option.bind_eq_bind]
  by_cases h4 : (s.rc4ValuesIndex + 1) % 256 = 4
  · simp only [h4, if_true]
    cases forRange nchan (fun k raw => do
        let v ← readAt s.rcvr k
        writeAt raw k v) (fun _ => 0) with
    | none => rfl
    | some raw =>
      simp only [Option.some_bind]
      exact forRange_map_comm (fun r : State × (Nat → Nat) => ({ r.1 with ppmTmp := t }, r.2))
        (computeRC_chan raw) (fun k a => computeRC_chan_ppmTmp raw k t a) nchan
        ({ s with rc4ValuesIndex := 0 }, rcData)
  · simp only [h4, if_false]
    cases forRange nchan (fun k raw => do
        let v ← readAt s.rcvr k
        writeAt raw k v) (fun _ => 0) with
    | none => rfl
    | some raw =>
      simp only [Option.some_bind]
      exact forRange_map_comm (fun r : State × (Nat → Nat) => ({ r.1 with ppmTmp := t }, r.2))
        (computeRC_chan raw) (fun k a => computeRC_chan_ppmTmp raw k t a) nchan
        ({ s with rc4ValuesIndex := (s.rc4ValuesIndex + 1) % 256 }, rcData)

/-- C16 (the frame consumer never writes producer state): with at most eight channels
and the history index in `0..3`, `computeRC` returns and leaves the committed array,
the working array, the cursor, the error counter, the pulse-start timestamp and the
new-frame flag as they were; of the caller's array it changes no element at an index
from `nchan` on, and it leaves history and mean of the channels from `nchan` on alone;
it reads the committed array (the history slot at the new index receives `rcvr[k]`)
but not the working array: with any other content `t` of `ppmTmp` the result is the
same. -/
theorem computeRC_frame (nchan : Nat) (hn : nchan ≤ 8) (rcData : Nat → Nat) (s : State)
    (hi : s.rc4ValuesIndex < 4) (t : Fin 8 → Nat) :
    ∃ (s2 : State) (rc2 : Nat → Nat),
      computeRC nchan rcData s = some (s2, rc2) ∧
      (s2.rcvr = s.rcvr ∧ s2.ppmTmp = s.ppmTmp ∧ s2.ppmCounter = s.ppmCounter ∧
        s2.ppmError = s.ppmError ∧ s2.startPulse = s.startPulse ∧
        s2.got_new_frame = s.got_new_frame) ∧
      (∀ k : Nat, nchan ≤ k → rc2 k = rcData k) ∧
      (∀ k : Fin 8, nchan ≤ k.val →
        s2.rcData4Values k = s.rcData4Values k ∧ s2.rcDataMean k = s.rcDataMean k) ∧
      (∀ (k : Fin 8) (a : Fin 4), k.val < nchan → a.val = s2.rc4ValuesIndex →
        s2.rcData4Values k a = s.rcvr k % 65536) ∧
      computeRC nchan rcData { s with ppmTmp := t } = some ({ s2 with ppmTmp := t }, rc2) := by
  obtain ⟨s2, rc2, hrun, hidx, hfr, hH, hM, _, hrest⟩ := computeRC_fields nchan hn rcData s hi
  refine ⟨s2, rc2, hrun, ⟨hfr.2.2.2.2.1, hfr.1, hfr.2.2.1, hfr.2.2.2.1, hfr.2.1, hfr.2.2.2.2.2⟩,
    hrest, ?_, ?_, ?_⟩
  · intro k hk
    refine ⟨?_, ?_⟩
    · funext a
      rw [hH k a, if_neg (fun h => by have := h.1; omega)]
    · rw [hM k, if_neg (by omega)]
  · intro k a hk ha
    rw [hH k a, if_pos ⟨hk, by rw [ha, hidx]⟩]
  · rw [computeRC_ppmTmp, hrun]
    rfl

/-- C16 on the zero-initialised filter with eight channels, the committed values at
1000, and the working array replaced by sevens. -/
theorem computeRC_frame_witness :
    ∃ (s2 : State) (rc2 : Nat → Nat),
      computeRC 8 (fun _ => 1500) (setCommitted 1000 zeroInit) = some (s2, rc2) ∧
      (s2.rcvr = (setCommitted 1000 zeroInit).rcvr ∧
        s2.ppmTmp = (setCommitted 1000 zeroInit).ppmTmp ∧
        s2.ppmCounter = (setCommitted 1000 zeroInit).ppmCounter ∧
        s2.ppmError = (setCommitted 1000 zeroInit).ppmError ∧
        s2.startPulse = (setCommitted 1000 zeroInit).startPulse ∧
        s2.got_new_frame = (setCommitted 1000 zeroInit).got_new_frame) ∧
      (∀ k : Nat, 8 ≤ k → rc2 k = 1500) ∧
      (∀ k : Fin 8, 8 ≤ k.val →
        s2.rcData4Values k = (setCommitted 1000 zeroInit).rcData4Values k ∧
        s2.rcDataMean k = (setCommitted 1000 zeroInit).rcDataMean k) ∧
      (∀ (k : Fin 8) (a : Fin 4), k.val < 8 → a.val = s2.rc4ValuesIndex →
        s2.rcData4Values k a = (setCommitted 1000 zeroInit).rcvr k % 65536) ∧
      computeRC 8 (fun _ => 1500)
          { setCommitted 1000 zeroInit with ppmTmp := fun _ => 7 } =
        some ({ s2 with ppmTmp := fun _ => 7 }, rc2) :=
  computeRC_frame 8 (by decide) (fun _ => 1500) (setCommitted 1000 zeroInit) (by decide)
    (fun _ => 7)

/-- C18 (the estimate tracks the mean within the deadband): for a channel `k` below
`nchan` and a 16-bit estimate, after one `computeRC` call the estimate and the rolling
mean differ by at most 3, and by exactly 2 if the call changed the estimate; a second
call, in any state `t`, that arrives at the same rolling mean leaves the estimate as
it is.  No bound on the history slots is needed for this. -/
theorem computeRC_within_deadband (nchan : Nat) (hn : nchan ≤ 8) (rcData : Nat → Nat)
    (s : State) (hi : s.rc4ValuesIndex < 4) (k : Fin 8) (hk : k.val < nchan)
    (he : rcData k.val < 65536) (t : State) (hti : t.rc4ValuesIndex < 4) :
    ∃ (s2 : State) (rc2 : Nat → Nat),
      computeRC nchan rcData s = some (s2, rc2) ∧
      (rc2 k.val ≤ s2.rcDataMean k + 3 ∧ s2.rcDataMean k ≤ rc2 k.val + 3) ∧
      (rc2 k.val ≠ rcData k.val →
        rc2 k.val = s2.rcDataMean k + 2 ∨ rc2 k.val + 2 = s2.rcDataMean k) ∧
      ∃ (t2 : State) (rc3 : Nat → Nat),
        computeRC nchan rc2 t = some (t2, rc3) ∧
        (t2.rcDataMean k = s2.rcDataMean k → rc3 k.val = rc2 k.val) := by
  obtain ⟨s2, rc2, hrun, _, _, _, hM, hrc, _⟩ := computeRC_fields nchan hn rcData s hi
  obtain ⟨t2, rc3, hrun2, _, _, _, hM2, hrc2, _⟩ := computeRC_fields nchan hn rc2 t hti
  have hm : s2.rcDataMean k < 65536 := by
    rw [hM k, if_pos hk]; exact meanOf_lt _
  have hm2 : t2.rcDataMean k < 65536 := by
    rw [hM2 k, if_pos hk]; exact meanOf_lt _
  have h1 := hrc k hk
  rw [deadband_eq _ _ hm he] at h1
  have hb : rc2 k.val ≤ s2.rcDataMean k + 3 ∧ s2.rcDataMean k ≤ rc2 k.val + 3 := by
    rw [h1]
    split_ifs <;> omega
  have hch : rc2 k.val ≠ rcData k.val →
      rc2 k.val = s2.rcDataMean k + 2 ∨ rc2 k.val + 2 = s2.rcDataMean k := by
    rw [h1]
    split_ifs <;> omega
  refine ⟨s2, rc2, hrun, hb, hch, t2, rc3, hrun2, ?_⟩
  intro hsame
  have h2 := hrc2 k hk
  have he2 : rc2 k.val < 65536 := by
    rw [h1]
    split_ifs <;> omega
  rw [deadband_eq _ _ hm2 he2, hsame] at h2
  rw [h2]
  split_ifs <;> omega

/-- C18 on the zero-initialised filter with eight channels, channel 0 committed at 1000
and estimated at 1500, the second call made on the zero-initialised filter again. -/
theorem computeRC_within_deadband_witness :
    ∃ (s2 : State) (rc2 : Nat → Nat),
      computeRC 8 (fun _ => 1500) (setCommitted 1000 zeroInit) = some (s2, rc2) ∧
      (rc2 0 ≤ s2.rcDataMean 0 + 3 ∧ s2.rcDataMean 0 ≤ rc2 0 + 3) ∧
      (rc2 0 ≠ 1500 → rc2 0 = s2.rcDataMean 0 + 2 ∨ rc2 0 + 2 = s2.rcDataMean 0) ∧
      ∃ (t2 : State) (rc3 : Nat → Nat),
        computeRC 8 rc2 (setCommitted 1000 zeroInit) = some (t2, rc3) ∧
        (t2.rcDataMean 0 = s2.rcDataMean 0 → rc3 0 = rc2 0) :=
  computeRC_within_deadband 8 (by decide) (fun _ => 1500) (setCommitted 1000 zeroInit)
    (by decide) 0 (by decide) (by decide) (setCommitted 1000 zeroInit) (by decide)

/-- Away from the wrap of the error counter (the counter below 65535, or a pulse that
is not an error pulse) the handler leaves exactly the state of the spec's classifier
applied to the measured width. -/
theorem isr_eq_isrSpec_of (c : Consts) (hc : c.WF) (now : Nat) (s : State)
    (h : s.ppmError < 65535 ∨ ¬ isErrorPulse c (sub32 now s.startPulse)) :
    isr c now s = some (isrSpec c now (sub32 now s.startPulse) s) := by
  obtain ⟨c1, c2, c3⟩ := hc
  by_cases hs : c.SYNCPULSE ≤ sub32 now s.startPulse
  · have he : ¬ isErrorPulse c (sub32 now s.startPulse) := by unfold isErrorPulse; omega
    have e1 : ¬ (sub32 now s.startPulse < c.MINPULSE ∨
        (sub32 now s.startPulse > c.MAXPULSE ∧ sub32 now s.startPulse < c.SYNCPULSE)) := by
      omega
    by_cases hcnt : s.ppmCounter ≤ 8
    · rw [isr_sync_commit c now s he hs hcnt]
      simp [isrSpec, e1, hs, hcnt]
    · rw [isr_sync_drop c now s he hs (by omega)]
      simp [isrSpec, e1, hs, hcnt]
  · have hns : sub32 now s.startPulse < c.SYNCPULSE := by omega
    by_cases he : isErrorPulse c (sub32 now s.startPulse)
    · have e1 : (sub32 now s.startPulse < c.MINPULSE ∨
          (sub32 now s.startPulse > c.MAXPULSE ∧ sub32 now s.startPulse < c.SYNCPULSE)) := by
        unfold isErrorPulse at he; omega
      have hlt : s.ppmError < 65535 := by
        rcases h with h | h
        · exact h
        · exact absurd he h
      have hmod : (s.ppmError + 1) % 65536 = s.ppmError + 1 := by omega
      rw [isr_error c now s he hns, hmod]
      simp [isrSpec, e1]
    · have hv : c.MINPULSE ≤ sub32 now s.startPulse ∧ sub32 now s.startPulse ≤ c.MAXPULSE := by
        unfold isErrorPulse at he; omega
      have e1 : ¬ (sub32 now s.startPulse < c.MINPULSE ∨
          (sub32 now s.startPulse > c.MAXPULSE ∧ sub32 now s.startPulse < c.SYNCPULSE)) := by
        omega
      have hmod : sub32 now s.startPulse % 65536 = sub32 now s.startPulse := by omega
      by_cases hcnt : s.ppmCounter < 8
      · rw [isr_channel c now s hv.1 hv.2 hns hcnt, hmod]
        simp [isrSpec, e1, hs, hcnt]
      · rw [isr_channel_full c now s hv.1 hv.2 hns (by omega)]
        simp [isrSpec, e1, hs, hcnt]

/-- The spec's classifier touches the error counter on error pulses only, adding 1. -/
theorem isrSpec_ppmError (c : Consts) (now w : Nat) (s : State) :
    (isrSpec c now w s).ppmError =
      if isErrorPulse c w then s.ppmError + 1 else s.ppmError := by
  unfold isrSpec isErrorPulse
  by_cases h1 : w < c.MINPULSE ∨ (w > c.MAXPULSE ∧ w < c.SYNCPULSE)
  · have h2 : w < c.MINPULSE ∨ (c.MAXPULSE < w ∧ w < c.SYNCPULSE) := by omega
    simp only [h1, h2, if_true]
  · have h2 : ¬ (w < c.MINPULSE ∨ (c.MAXPULSE < w ∧ w < c.SYNCPULSE)) := by omega
    simp only [h1, h2, if_false]
    split_ifs <;> rfl

/-- C14 as stated fails: with the error counter at 65535 (thresholds 800 / 2200 / 2700,
timestamp 0, clock reading 500, an error pulse) `isr` leaves the counter at 0 while the
spec's classifier, which increments it, gives 65536, so the two states differ; and this
state of the counter is reached from `begin()` by 65535 error pulses, after which the
next error pulse makes the two differ in the same way. -/
theorem isr_differs_from_isrSpec :
    (∃ s1, isr ⟨800, 2200, 2700⟩ 500 { zeroInit with ppmError := 65535 } = some s1 ∧
      s1.ppmError = 0 ∧
      (isrSpec ⟨800, 2200, 2700⟩ 500 (sub32 500 0)
        { zeroInit with ppmError := 65535 }).ppmError = 65536 ∧
      isr ⟨800, 2200, 2700⟩ 500 { zeroInit with ppmError := 65535 } ≠
        some (isrSpec ⟨800, 2200, 2700⟩ 500 (sub32 500 0)
          { zeroInit with ppmError := 65535 })) ∧
    (∃ b s2 s3, begin 8 zeroInit = some b ∧
      runIntervals ⟨800, 2200, 2700⟩ (List.replicate 65535 500) b = some s2 ∧
      s2.ppmError = 65535 ∧
      isr ⟨800, 2200, 2700⟩ ((s2.startPulse + 500) % 4294967296) s2 = some s3 ∧
      s3.ppmError = 0 ∧
      isr ⟨800, 2200, 2700⟩ ((s2.startPulse + 500) % 4294967296) s2 ≠
        some (isrSpec ⟨800, 2200, 2700⟩ ((s2.startPulse + 500) % 4294967296)
          (sub32 ((s2.startPulse + 500) % 4294967296) s2.startPulse) s2)) := by
  constructor
  · refine ⟨_, rfl, by decide, by decide, ?_⟩
    intro h
    have h2 := congrArg (Option.map State.ppmError) h
    revert h2
    decide
  · obtain ⟨b, hb, _, _, _, hbe, _⟩ := begin_fields 8 (le_refl 8) zeroInit
    have hcount : errorCount ⟨800, 2200, 2700⟩ (List.replicate 65535 500) = 65535 := by
      unfold errorCount
      rw [List.countP_replicate]
      decide
    obtain ⟨s2, hrun, he, hlt⟩ := run_errors ⟨800, 2200, 2700⟩ (List.replicate 65535 500) b
      (by
        intro w hw
        rw [(List.mem_replicate.mp hw).2]
        decide)
    have h2 : s2.ppmError = 65535 := by
      have := hlt (by rw [hbe]; decide)
      rw [hbe, hcount] at he
      omega
    have herr : isErrorPulse ⟨800, 2200, 2700⟩ 500 := by decide
    obtain ⟨s3, hstep, _, _, he3, _⟩ :=
      isrAfter_fields ⟨800, 2200, 2700⟩ 500 s2 (by decide)
    unfold isrAfter at hstep
    have h3 : s3.ppmError = 0 := by
      rw [he3, if_pos herr, h2]
    refine ⟨b, s2, s3, hb, hrun, h2, hstep, h3, ?_⟩
    intro h
    rw [hstep] at h
    have h4 := congrArg State.ppmError (Option.some.inj h)
    rw [h3, isrSpec_ppmError, sub32_after s2.startPulse 500 (by decide), if_pos herr, h2] at h4
    exact absurd h4 (by decide)

/-- C14 amended (`isr` refines the spec's exclusive classifier up to the width of the
error counter): for ordered thresholds, every state whose error counter is a 16-bit
value and every clock value `now`, the state `isr` leaves (an error check followed by
an independent sync-or-channel `if`/`else`) is the state the spec's three-way algorithm
produces on the measured width, with the error counter reduced modulo `2^16`; the two
states are equal whenever the counter is below 65535 or the pulse is not an error
pulse; and the measured width is the spec's `now - pulseStartTimestamp` whenever the
clock has not wrapped since the previous edge. -/
theorem isr_refines_isrSpec_mod (c : Consts) (hc : c.WF) (now : Nat) (s : State)
    (he : s.ppmError < 65536) :
    isr c now s = some { isrSpec c now (sub32 now s.startPulse) s with
      ppmError := (isrSpec c now (sub32 now s.startPulse) s).ppmError % 65536 } ∧
    ((s.ppmError < 65535 ∨ ¬ isErrorPulse c (sub32 now s.startPulse)) →
      isr c now s = some (isrSpec c now (sub32 now s.startPulse) s)) ∧
    (s.startPulse ≤ now → now < 4294967296 → sub32 now s.startPulse = now - s.startPulse) := by
  refine ⟨?_, fun h => isr_eq_isrSpec_of c hc now s h, ?_⟩
  · by_cases hw : isErrorPulse c (sub32 now s.startPulse)
    · have hns : sub32 now s.startPulse < c.SYNCPULSE := by
        have := hc.1; have := hc.2.1
        unfold isErrorPulse at hw; omega
      have e1 : (sub32 now s.startPulse < c.MINPULSE ∨
          (sub32 now s.startPulse > c.MAXPULSE ∧ sub32 now s.startPulse < c.SYNCPULSE)) := by
        unfold isErrorPulse at hw; omega
      rw [isr_error c now s hw hns]
      simp [isrSpec, e1]
    · rw [isr_eq_isrSpec_of c hc now s (Or.inr hw)]
      have hpe := isrSpec_ppmError c now (sub32 now s.startPulse) s
      rw [if_neg hw] at hpe
      have hmod : (isrSpec c now (sub32 now s.startPulse) s).ppmError % 65536 =
          (isrSpec c now (sub32 now s.startPulse) s).ppmError := by
        rw [hpe]; omega
      rw [hmod]
  · intro h1 h2
    unfold sub32
    omega

/-- C14 amended, at thresholds 800 / 2200 / 2700: the error pulse 500 met with the
error counter at 7 and the cursor at 3. -/
theorem isr_refines_isrSpec_mod_witness :
    isr ⟨800, 2200, 2700⟩ 500 { zeroInit with ppmCounter := 3, ppmError := 7 } =
      some { isrSpec ⟨800, 2200, 2700⟩ 500
          (sub32 500 ({ zeroInit with ppmCounter := 3, ppmError := 7 } : State).startPulse)
          { zeroInit with ppmCounter := 3, ppmError := 7 } with
        ppmError := (isrSpec ⟨800, 2200, 2700⟩ 500
          (sub32 500 ({ zeroInit with ppmCounter := 3, ppmError := 7 } : State).startPulse)
          { zeroInit with ppmCounter := 3, ppmError := 7 }).ppmError % 65536 } ∧
    ((({ zeroInit with ppmCounter := 3, ppmError := 7 } : State).ppmError < 65535 ∨
        ¬ isErrorPulse ⟨800, 2200, 2700⟩
          (sub32 500 ({ zeroInit with ppmCounter := 3, ppmError := 7 } : State).startPulse)) →
      isr ⟨800, 2200, 2700⟩ 500 { zeroInit with ppmCounter := 3, ppmError := 7 } =
        some (isrSpec ⟨800, 2200, 2700⟩ 500
          (sub32 500 ({ zeroInit with ppmCounter := 3, ppmError := 7 } : State).startPulse)
          { zeroInit with ppmCounter := 3, ppmError := 7 })) ∧
    (({ zeroInit with ppmCounter := 3, ppmError := 7 } : State).startPulse ≤ 500 →
      500 < 4294967296 →
      sub32 500 ({ zeroInit with ppmCounter := 3, ppmError := 7 } : State).startPulse =
        500 - ({ zeroInit with ppmCounter := 3, ppmError := 7 } : State).startPulse) :=
  isr_refines_isrSpec_mod ⟨800, 2200, 2700⟩ (by decide) 500
    { zeroInit with ppmCounter := 3, ppmError := 7 } (by decide)

end CPPMRX
